import Mathlib

set_option maxRecDepth 40000

/-!
Verification of the OpenMoji → RGB565 asset pipeline
(`convert_emojis_pure.py`, `convert_pngs_to_array.py`).

The Python sources are shallowly embedded: pure functions become Lean
functions over `Nat`/`Int`/`List`, images become a width/height plus a
pixel-lookup function, and the CPython integer semantics (`&`, `|`, `<<`,
`>>`, floor division, banker's rounding of `round`) are modelled
explicitly.
-/

/-! ## Pixels and fixed pipeline constants -/

/-- An RGB888 pixel, as the `(r, g, b)` tuples PIL's `getpixel` returns. -/
abbrev Pixel := Nat × Nat × Nat

/-- The sentinel "transparent" background color `(255, 0, 255)`
(default `background_key` parameter throughout `convert_emojis_pure.py`). -/
def BACKGROUND_KEY : Pixel := (255, 0, 255)

/-- Default `outline_boost_threshold` of `pil_to_rgb565_array`. -/
def OUTLINE_BOOST_THRESHOLD : Nat := 10

/-- Default `outline_boost_rgb` of `pil_to_rgb565_array`. -/
def OUTLINE_BOOST_RGB : Pixel := (40, 40, 40)

/-! ## RGB helpers (`rgb888_to_rgb565`, identical in both scripts) -/

/-- Embedding of
`return ((r & 0xF8) << 8) | ((g & 0xFC) << 3) | (b >> 3)`
(`convert_emojis_pure.py` line 191, `convert_pngs_to_array.py` line 15). -/
def rgb888_to_rgb565 (r g b : Nat) : Nat :=
  ((r &&& 0xF8) <<< 8) ||| ((g &&& 0xFC) <<< 3) ||| (b >>> 3)

/-- Decoder written from the specification's words (the source never decodes):
split the 16-bit value into the 5/6/5 fields and re-expand each field to
8 bits by shifting left. -/
def rgb565_decode (v : Nat) : Pixel :=
  (((v >>> 11) &&& 0x1F) <<< 3, ((v >>> 5) &&& 0x3F) <<< 2, (v &&& 0x1F) <<< 3)

/-! ### Arithmetic characterization of the encoder -/

theorem lor_mul_two_pow_add {a b k : Nat} (hb : b < 2 ^ k) :
    (2 ^ k * a) ||| b = 2 ^ k * a + b := by
  apply Nat.eq_of_testBit_eq
  intro i
  rw [Nat.testBit_or, Nat.testBit_mul_pow_two_add a hb i, Nat.testBit_mul_pow_two]
  by_cases h : i < k
  · simp [h, Nat.not_le.mpr h]
  · have hbi : b.testBit i = false :=
      Nat.testBit_lt_two_pow (lt_of_lt_of_le hb (Nat.pow_le_pow_right (by norm_num) (Nat.le_of_not_lt h)))
    simp [h, Nat.le_of_not_lt h, hbi]

theorem and_f8_eq (r : Nat) (hr : r ≤ 255) : r &&& 0xF8 = r / 8 * 8 := by
  have h : ∀ x : Fin 256, x.val &&& 0xF8 = x.val / 8 * 8 := by decide
  exact h ⟨r, by omega⟩

theorem and_fc_eq (g : Nat) (hg : g ≤ 255) : g &&& 0xFC = g / 4 * 4 := by
  have h : ∀ x : Fin 256, x.val &&& 0xFC = x.val / 4 * 4 := by decide
  exact h ⟨g, by omega⟩

/-- The packed RGB565 word, arithmetically: the top 5 bits of red at
weight 2^11, the top 6 bits of green at weight 2^5, the top 5 bits of blue
at weight 1. -/
theorem rgb888_to_rgb565_arith (r g b : Nat)
    (hr : r ≤ 255) (hg : g ≤ 255) (hb : b ≤ 255) :
    rgb888_to_rgb565 r g b = r / 8 * 2048 + g / 4 * 32 + b / 8 := by
  unfold rgb888_to_rgb565
  rw [and_f8_eq r hr, and_fc_eq g hg, Nat.shiftLeft_eq, Nat.shiftLeft_eq,
    Nat.shiftRight_eq_div_pow]
  have e1 : r / 8 * 8 * 2 ^ 8 = 2 ^ 11 * (r / 8) := by ring
  have e2 : g / 4 * 4 * 2 ^ 3 = 2 ^ 5 * (g / 4) := by ring
  rw [e1, e2]
  have hg4 : g / 4 ≤ 63 := by omega
  have hb8 : b / 2 ^ 3 = b / 8 := by norm_num
  rw [hb8]
  have h1 : (2 ^ 5 * (g / 4)) ||| (b / 8) = 2 ^ 5 * (g / 4) + b / 8 :=
    lor_mul_two_pow_add (by omega)
  rw [Nat.lor_assoc, h1]
  have h2 : (2 ^ 11 * (r / 8)) ||| (2 ^ 5 * (g / 4) + b / 8)
      = 2 ^ 11 * (r / 8) + (2 ^ 5 * (g / 4) + b / 8) :=
    lor_mul_two_pow_add (by omega)
  rw [h2]; ring

/-- The encoded word is zero exactly when every channel falls below its
kept-bits granularity. -/
theorem rgb888_to_rgb565_eq_zero_iff (r g b : Nat)
    (hr : r ≤ 255) (hg : g ≤ 255) (hb : b ≤ 255) :
    rgb888_to_rgb565 r g b = 0 ↔ (r ≤ 7 ∧ g ≤ 3 ∧ b ≤ 7) := by
  rw [rgb888_to_rgb565_arith r g b hr hg hb]
  omega

/-- C2: for 8-bit channels, `rgb888_to_rgb565` packs red's top 5 bits into
bits 15..11, green's top 6 bits into bits 10..5 and blue's top 5 bits into
bits 4..0, and re-expanding the three fields recovers exactly
`(r &&& 0xF8, g &&& 0xFC, b &&& 0xF8)`: nothing drifts beyond the 5/6/5
truncation. -/
theorem C2_rgb565_pack_roundtrip (r g b : Nat)
    (hr : r ≤ 255) (hg : g ≤ 255) (hb : b ≤ 255) :
    rgb888_to_rgb565 r g b = r / 8 * 2 ^ 11 + g / 4 * 2 ^ 5 + b / 8
      ∧ rgb565_decode (rgb888_to_rgb565 r g b)
        = (r &&& 0xF8, g &&& 0xFC, b &&& 0xF8) := by
  have harith := rgb888_to_rgb565_arith r g b hr hg hb
  constructor
  · rw [harith]; ring
  · have hr8 : r / 8 ≤ 31 := by omega
    have hg4 : g / 4 ≤ 63 := by omega
    have hb8 : b / 8 ≤ 31 := by omega
    unfold rgb565_decode
    rw [harith]
    have mask5 : ∀ x : Nat, x &&& 0x1F = x % 2 ^ 5 := fun x =>
      Nat.and_pow_two_sub_one_eq_mod x 5
    have mask6 : ∀ x : Nat, x &&& 0x3F = x % 2 ^ 6 := fun x =>
      Nat.and_pow_two_sub_one_eq_mod x 6
    have d11 : (r / 8 * 2048 + g / 4 * 32 + b / 8) >>> 11 = r / 8 := by
      rw [Nat.shiftRight_eq_div_pow]; norm_num; omega
    have d5 : (r / 8 * 2048 + g / 4 * 32 + b / 8) >>> 5
        = r / 8 * 64 + g / 4 := by
      rw [Nat.shiftRight_eq_div_pow]; norm_num; omega
    rw [d11, d5, mask5, mask6, mask5]
    have m1 : r / 8 % 2 ^ 5 = r / 8 := Nat.mod_eq_of_lt (by omega)
    have m2 : (r / 8 * 64 + g / 4) % 2 ^ 6 = g / 4 := by omega
    have m3 : (r / 8 * 2048 + g / 4 * 32 + b / 8) % 2 ^ 5 = b / 8 := by omega
    rw [m1, m2, m3, and_f8_eq r hr, and_fc_eq g hg, and_f8_eq b hb]
    simp [Nat.shiftLeft_eq]

/-- Witness for C2 at `(r, g, b) = (200, 100, 50)`. -/
theorem C2_rgb565_pack_roundtrip_witness :
    (200 : Nat) ≤ 255 ∧ (100 : Nat) ≤ 255 ∧ (50 : Nat) ≤ 255 ∧
    (rgb888_to_rgb565 200 100 50 = 200 / 8 * 2 ^ 11 + 100 / 4 * 2 ^ 5 + 50 / 8
      ∧ rgb565_decode (rgb888_to_rgb565 200 100 50)
        = (200 &&& 0xF8, 100 &&& 0xFC, 50 &&& 0xF8)) :=
  ⟨by decide, by decide, by decide,
    C2_rgb565_pack_roundtrip 200 100 50 (by decide) (by decide) (by decide)⟩

/-! ## Images

A PIL RGB image is modelled as a width, a height and a pixel lookup;
`px x y` is only meaningful for `x < w`, `y < h`, matching `getpixel`. -/

structure Img where
  w : Nat
  h : Nat
  px : Nat → Nat → Pixel

/-- The row-major traversal order `for y in range(h): for x in range(w)`
used by every pixel loop in the source. -/
def coordsList (w h : Nat) : List (Nat × Nat) :=
  (List.range h).flatMap (fun y => (List.range w).map (fun x => (x, y)))

theorem mem_coordsList {w h : Nat} {p : Nat × Nat} :
    p ∈ coordsList w h ↔ p.1 < w ∧ p.2 < h := by
  unfold coordsList
  simp only [List.mem_flatMap, List.mem_map, List.mem_range]
  constructor
  · rintro ⟨y, hy, x, hx, rfl⟩; exact ⟨hx, hy⟩
  · rintro ⟨h1, h2⟩; exact ⟨p.2, h2, p.1, h1, rfl⟩

/-! ## The color quantizer (`pil_to_rgb565_array`, lines 468-492) -/

/-- The per-pixel branch of the loop body of `pil_to_rgb565_array`:
sentinel → `0x0000`; all channels at most the threshold → encode the boost
color; otherwise encode the pixel unchanged. -/
def quantizePixel (background_key : Pixel) (outline_boost_threshold : Nat)
    (outline_boost_rgb : Pixel) (p : Pixel) : Nat :=
  if p = background_key then 0x0000
  else if p.1 ≤ outline_boost_threshold ∧ p.2.1 ≤ outline_boost_threshold
      ∧ p.2.2 ≤ outline_boost_threshold then
    rgb888_to_rgb565 outline_boost_rgb.1 outline_boost_rgb.2.1 outline_boost_rgb.2.2
  else rgb888_to_rgb565 p.1 p.2.1 p.2.2

/-- Embedding of `pil_to_rgb565_array`: the row-major list of quantized
pixels (`for y in range(h): for x in range(w): out.append(...)`). -/
def pil_to_rgb565_array (img : Img) (background_key : Pixel)
    (outline_boost_threshold : Nat) (outline_boost_rgb : Pixel) : List Nat :=
  (List.range img.h).flatMap (fun y =>
    (List.range img.w).map (fun x =>
      quantizePixel background_key outline_boost_threshold outline_boost_rgb
        (img.px x y)))

theorem flatMap_rows_length {α : Type} (w h : Nat) (f : Nat → Nat → α) :
    ((List.range h).flatMap (fun y => (List.range w).map (f y))).length = h * w := by
  induction h with
  | zero => simp
  | succ n ih =>
      rw [List.range_succ, List.flatMap_append, List.length_append, ih]
      simp [Nat.succ_mul]

theorem flatMap_rows_getElem {α : Type} (w h x y : Nat) (f : Nat → Nat → α)
    (hx : x < w) (hy : y < h) :
    ((List.range h).flatMap (fun y => (List.range w).map (f y)))[y * w + x]?
      = some (f y x) := by
  induction h with
  | zero => omega
  | succ n ih =>
      rw [List.range_succ, List.flatMap_append]
      by_cases hyn : y < n
      · have hlt : y * w + x < n * w := by
          calc y * w + x < y * w + w := by omega
          _ = (y + 1) * w := by ring
          _ ≤ n * w := Nat.mul_le_mul_right w (by omega)
        rw [List.getElem?_append, flatMap_rows_length, if_pos hlt]
        exact ih hyn
      · have hye : y = n := by omega
        subst hye
        rw [List.getElem?_append_right (by rw [flatMap_rows_length]; omega)]
        rw [flatMap_rows_length]
        simp only [List.flatMap_cons, List.flatMap_nil, List.append_nil,
          Nat.add_sub_cancel_left]
        rw [List.getElem?_map, List.getElem?_range hx]
        rfl

theorem pil_to_rgb565_array_getElem (img : Img) (bk : Pixel) (thr : Nat)
    (boost : Pixel) (x y : Nat) (hx : x < img.w) (hy : y < img.h) :
    (pil_to_rgb565_array img bk thr boost)[y * img.w + x]?
      = some (quantizePixel bk thr boost (img.px x y)) := by
  exact flatMap_rows_getElem img.w img.h x y _ hx hy

/-- C1: a pixel that exactly equals the sentinel background color is
emitted as `0x0000` at its row-major position. -/
theorem C1_sentinel_pixel_encodes_zero (img : Img) (x y : Nat)
    (hx : x < img.w) (hy : y < img.h)
    (hbg : img.px x y = BACKGROUND_KEY) :
    (pil_to_rgb565_array img BACKGROUND_KEY OUTLINE_BOOST_THRESHOLD
      OUTLINE_BOOST_RGB)[y * img.w + x]? = some 0x0000 := by
  rw [pil_to_rgb565_array_getElem img _ _ _ x y hx hy]
  rw [quantizePixel, if_pos hbg]

/-- Witness for C1: a 2×2 image whose pixel (0, 1) is the sentinel. -/
theorem C1_sentinel_pixel_encodes_zero_witness :
    (0 : Nat) < 2 ∧ (1 : Nat) < 2 ∧
    (Img.mk 2 2 (fun x y => if x = 0 ∧ y = 1 then (255, 0, 255) else (9, 9, 9))).px 0 1
      = BACKGROUND_KEY ∧
    (pil_to_rgb565_array
      (Img.mk 2 2 (fun x y => if x = 0 ∧ y = 1 then (255, 0, 255) else (9, 9, 9)))
      BACKGROUND_KEY OUTLINE_BOOST_THRESHOLD OUTLINE_BOOST_RGB)[1 * 2 + 0]?
      = some 0x0000 :=
  ⟨by decide, by decide, by decide,
    C1_sentinel_pixel_encodes_zero _ 0 1 (by decide) (by decide) (by decide)⟩

/-- C3: a non-sentinel pixel with every channel at most the darkness
threshold is emitted as the encoding of the substitute dark gray
`(40, 40, 40)`; a non-sentinel pixel with some channel above the threshold
is encoded unchanged. -/
theorem C3_dark_pixel_boost (img : Img) (x y : Nat)
    (hx : x < img.w) (hy : y < img.h)
    (hbg : img.px x y ≠ BACKGROUND_KEY) :
    ((img.px x y).1 ≤ 10 ∧ (img.px x y).2.1 ≤ 10 ∧ (img.px x y).2.2 ≤ 10 →
      (pil_to_rgb565_array img BACKGROUND_KEY OUTLINE_BOOST_THRESHOLD
        OUTLINE_BOOST_RGB)[y * img.w + x]? = some (rgb888_to_rgb565 40 40 40))
    ∧ (¬ ((img.px x y).1 ≤ 10 ∧ (img.px x y).2.1 ≤ 10 ∧ (img.px x y).2.2 ≤ 10) →
      (pil_to_rgb565_array img BACKGROUND_KEY OUTLINE_BOOST_THRESHOLD
        OUTLINE_BOOST_RGB)[y * img.w + x]?
        = some (rgb888_to_rgb565 (img.px x y).1 (img.px x y).2.1 (img.px x y).2.2)) := by
  rw [pil_to_rgb565_array_getElem img _ _ _ x y hx hy]
  unfold quantizePixel OUTLINE_BOOST_THRESHOLD OUTLINE_BOOST_RGB
  constructor
  · intro hdark
    rw [if_neg hbg, if_pos hdark]
  · intro hlight
    rw [if_neg hbg, if_neg hlight]

/-- Witness for C3: a 1×2 image with a dark pixel and a bright pixel. -/
theorem C3_dark_pixel_boost_witness :
    (0 : Nat) < 1 ∧ (0 : Nat) < 2 ∧
    (Img.mk 1 2 (fun _ y => if y = 0 then (3, 4, 5) else (200, 12, 0))).px 0 0
      ≠ BACKGROUND_KEY ∧
    (((Img.mk 1 2 (fun _ y => if y = 0 then (3, 4, 5) else (200, 12, 0))).px 0 0).1 ≤ 10 ∧
      ((Img.mk 1 2 (fun _ y => if y = 0 then (3, 4, 5) else (200, 12, 0))).px 0 0).2.1 ≤ 10 ∧
      ((Img.mk 1 2 (fun _ y => if y = 0 then (3, 4, 5) else (200, 12, 0))).px 0 0).2.2 ≤ 10 →
      (pil_to_rgb565_array
        (Img.mk 1 2 (fun _ y => if y = 0 then (3, 4, 5) else (200, 12, 0)))
        BACKGROUND_KEY OUTLINE_BOOST_THRESHOLD OUTLINE_BOOST_RGB)[0 * 1 + 0]?
        = some (rgb888_to_rgb565 40 40 40)) :=
  ⟨by decide, by decide, by decide,
    (C3_dark_pixel_boost _ 0 0 (by decide) (by decide) (by decide)).1⟩

/-- C10: `0x0000` appears at a row-major position iff the input pixel there
is exactly the sentinel background color (for genuine 8-bit channels). -/
theorem C10_zero_reserved_for_sentinel (img : Img) (x y : Nat)
    (hx : x < img.w) (hy : y < img.h)
    (h8 : (img.px x y).1 ≤ 255 ∧ (img.px x y).2.1 ≤ 255 ∧ (img.px x y).2.2 ≤ 255) :
    (pil_to_rgb565_array img BACKGROUND_KEY OUTLINE_BOOST_THRESHOLD
      OUTLINE_BOOST_RGB)[y * img.w + x]? = some 0x0000
    ↔ img.px x y = BACKGROUND_KEY := by
  rw [pil_to_rgb565_array_getElem img _ _ _ x y hx hy]
  unfold quantizePixel OUTLINE_BOOST_THRESHOLD OUTLINE_BOOST_RGB
  by_cases hbg : img.px x y = BACKGROUND_KEY
  · simp [hbg]
  · rw [if_neg hbg]
    by_cases hdark : (img.px x y).1 ≤ 10 ∧ (img.px x y).2.1 ≤ 10
        ∧ (img.px x y).2.2 ≤ 10
    · rw [if_pos hdark]
      simp only [Option.some_inj]
      constructor
      · intro hc; exact absurd hc (by decide)
      · intro hc; exact absurd hc hbg
    · rw [if_neg hdark]
      simp only [Option.some_inj]
      constructor
      · intro hc
        rw [rgb888_to_rgb565_eq_zero_iff _ _ _ h8.1 h8.2.1 h8.2.2] at hc
        exact absurd ⟨by omega, by omega, by omega⟩ hdark
      · intro hc; exact absurd hc hbg

/-- Witness for C10: a 2×1 image with one sentinel and one near-black pixel. -/
theorem C10_zero_reserved_for_sentinel_witness :
    (1 : Nat) < 2 ∧ (0 : Nat) < 1 ∧
    (((pil_to_rgb565_array
        (Img.mk 2 1 (fun x _ => if x = 0 then (255, 0, 255) else (1, 1, 1)))
        BACKGROUND_KEY OUTLINE_BOOST_THRESHOLD OUTLINE_BOOST_RGB)[0 * 2 + 1]?
        = some 0x0000)
      ↔ (Img.mk 2 1 (fun x _ => if x = 0 then (255, 0, 255) else (1, 1, 1))).px 1 0
        = BACKGROUND_KEY) :=
  ⟨by decide, by decide,
    C10_zero_reserved_for_sentinel _ 1 0 (by decide) (by decide) (by decide)⟩

/-! ## The array emitter (`generate_cpp_array`, lines 495-503; header
emission in `main`, lines 607-621) -/

/-- Uppercase hexadecimal digit, as produced by Python's `"%X"` formatting. -/
def hexDigitChar (n : Nat) : Char :=
  if n < 10 then Char.ofNat (48 + n) else Char.ofNat (55 + n)

/-- The digits of `n` in base 16, most significant first
(Python `f"{n:X}"`, before padding). -/
def hexChars (n : Nat) : List Char :=
  if n < 16 then [hexDigitChar n]
  else hexChars (n / 16) ++ [hexDigitChar (n % 16)]
termination_by n
decreasing_by omega

/-- Python `f"{val:04X}"`: uppercase hex, left-padded with zeros to at
least four digits. -/
def fmt04X (val : Nat) : String :=
  ⟨List.replicate (4 - (hexChars val).length) '0' ++ hexChars val⟩

/-- One step of `range(0, len(arr), 16)` chunking: the successive 16-element
slices of the array. -/
def chunks16 (l : List Nat) : List (List Nat) :=
  if l = [] then []
  else l.take 16 :: chunks16 (l.drop 16)
termination_by l.length
decreasing_by
  simp only [List.length_drop]
  rename_i hne
  have := List.length_pos.mpr hne
  omega

/-- Embedding of `generate_cpp_array`: the header line, the chunk lines of
16 comma-separated `0x%04X` literals, and the closing brace, joined by
newlines. -/
def generate_cpp_array (name : String) (rgb565_array : List Nat) : String :=
  String.intercalate "\n"
    (("const uint16_t " ++ name ++ "[" ++ toString rgb565_array.length ++ "] = \x7b")
      :: ((chunks16 rgb565_array).map (fun chunk =>
            "    " ++ String.intercalate ", "
              (chunk.map (fun val => "0x" ++ fmt04X val)) ++ ",")
          ++ ["\x7d;"]))

/-- The fixed lines `main` writes before any array. -/
def headerPreamble : String :=
  "#pragma once\n" ++ "#include <Arduino.h>\n\n"
  ++ "// OpenMoji emoji data converted from SVG to 64x64 RGB565\n"
  ++ "// Source: https://openmoji.org (CC BY-SA 4.0)\n\n"

/-- The aggregate pointer array over the given array names, in order. -/
def aggregateBlock (names : List String) : String :=
  "const uint16_t* emoji_arrays[" ++ toString names.length ++ "] = \x7b\n"
  ++ String.join (names.map (fun n => "    " ++ n ++ ",\n"))
  ++ "\x7d;\n\n"

/-- Embedding of the `EmojisData.h` emission in `main` (lines 607-621):
preamble, each named array declaration in order, the aggregate list of
array names, and the count constant. -/
def emitted_header (arrays : List (String × List Nat)) : String :=
  headerPreamble
  ++ String.join (arrays.map (fun p => generate_cpp_array p.1 p.2 ++ "\n\n"))
  ++ "const uint16_t* emoji_arrays[" ++ toString arrays.length ++ "] = \x7b\n"
  ++ String.join (arrays.map (fun p => "    " ++ p.1 ++ ",\n"))
  ++ "\x7d;\n\n"
  ++ "const int NUM_EMOJIS = " ++ toString arrays.length ++ ";\n"

/-- Uppercase-hex digit recognizer. -/
def isHexDigitU (c : Char) : Bool :=
  c.isDigit || ('A' ≤ c && c ≤ 'F')

theorem chunks16_flatten (l : List Nat) : (chunks16 l).flatten = l := by
  induction l using chunks16.induct with
  | case1 => rw [chunks16]; simp
  | case2 l hne ih =>
      rw [chunks16, if_neg hne]
      simp only [List.flatten_cons, ih, List.take_append_drop]

theorem chunks16_sizes (l : List Nat) :
    ∀ ch ∈ chunks16 l, ch ≠ [] ∧ ch.length ≤ 16 := by
  induction l using chunks16.induct with
  | case1 => rw [chunks16]; simp
  | case2 l hne ih =>
      rw [chunks16, if_neg hne]
      intro ch hch
      rcases List.mem_cons.mp hch with hch | hch
      · subst hch
        have hl := List.length_pos.mpr hne
        constructor
        · exact List.length_pos.mp (by rw [List.length_take]; omega)
        · rw [List.length_take]; omega
      · exact ih ch hch

theorem hexChars_ne_nil (n : Nat) : hexChars n ≠ [] := by
  rw [hexChars]
  split <;> simp

theorem hexChars_length_le (k : Nat) :
    ∀ n : Nat, n < 16 ^ k → 1 ≤ k → (hexChars n).length ≤ k := by
  induction k with
  | zero => omega
  | succ m ih =>
      intro n hn _
      rw [hexChars]
      by_cases h16 : n < 16
      · simp [h16]
      · rw [if_neg h16]
        have hm1 : 1 ≤ m := by
          by_contra hm
          have : m = 0 := by omega
          subst this
          simp at hn; omega
        have : (hexChars (n / 16)).length ≤ m := by
          apply ih _ _ hm1
          have : 16 ^ (m + 1) = 16 ^ m * 16 := by ring
          omega
        simp only [List.length_append, List.length_cons, List.length_nil]
        omega

theorem hexChars_all_hex (n : Nat) :
    ∀ c ∈ hexChars n, isHexDigitU c = true := by
  have hdig : ∀ x : Fin 16, isHexDigitU (hexDigitChar x.val) = true := by decide
  induction n using hexChars.induct with
  | case1 n h16 =>
      rw [hexChars, if_pos h16]
      intro c hc
      rw [List.mem_singleton.mp hc]
      exact hdig ⟨n, h16⟩
  | case2 n h16 ih =>
      rw [hexChars, if_neg h16]
      intro c hc
      rcases List.mem_append.mp hc with hc | hc
      · exact ih c hc
      · rw [List.mem_singleton.mp hc]
        exact hdig ⟨n % 16, Nat.mod_lt n (by omega)⟩

theorem fmt04X_spec (val : Nat) (hv : val < 65536) :
    (fmt04X val).length = 4 ∧ ∀ c ∈ (fmt04X val).data, isHexDigitU c = true := by
  have hlen : (hexChars val).length ≤ 4 := hexChars_length_le 4 val (by omega) (by omega)
  have hnn : hexChars val ≠ [] := hexChars_ne_nil val
  have hpos : 1 ≤ (hexChars val).length := List.length_pos.mpr hnn
  constructor
  · show (List.replicate (4 - (hexChars val).length) '0' ++ hexChars val).length = 4
    simp only [List.length_append, List.length_replicate]
    omega
  · intro c hc
    have hc' : c ∈ List.replicate (4 - (hexChars val).length) '0' ++ hexChars val := hc
    rcases List.mem_append.mp hc' with hc0 | hcd
    · rw [List.eq_of_mem_replicate hc0]; decide
    · exact hexChars_all_hex val c hcd

/-- C8: each emitted declaration lists the array's values in order in
16-value lines, each value as a four-digit uppercase-hex `0x` literal, and
the emitted header is the declarations in order followed by one aggregate
list of all array names in the same order and a count constant equal to
the number of arrays. -/
theorem C8_emitted_text_structure (arrays : List (String × List Nat))
    (h16bit : ∀ p ∈ arrays, ∀ v ∈ p.2, v < 65536) :
    (∀ p ∈ arrays, (chunks16 p.2).flatten = p.2
        ∧ ∀ ch ∈ chunks16 p.2, ch ≠ [] ∧ ch.length ≤ 16)
    ∧ (∀ p ∈ arrays, ∀ v ∈ p.2,
        (fmt04X v).length = 4 ∧ ∀ c ∈ (fmt04X v).data, isHexDigitU c = true)
    ∧ emitted_header arrays
        = headerPreamble
          ++ String.join (arrays.map (fun p => generate_cpp_array p.1 p.2 ++ "\n\n"))
          ++ aggregateBlock (arrays.map Prod.fst)
          ++ "const int NUM_EMOJIS = " ++ toString arrays.length ++ ";\n" := by
  refine ⟨?_, ?_, ?_⟩
  · intro p _
    exact ⟨chunks16_flatten p.2, chunks16_sizes p.2⟩
  · intro p hp v hv
    exact fmt04X_spec v (h16bit p hp v hv)
  · unfold emitted_header aggregateBlock
    rw [List.length_map, List.map_map]
    simp only [String.append_assoc, Function.comp_def]

/-- Witness for C8 on a one-array input with 17 values. -/
theorem C8_emitted_text_structure_witness :
    (∀ p ∈ [("emoji_1f602", List.replicate 16 (0xF800 : Nat) ++ [0x07E0])],
        ∀ v ∈ p.2, v < 65536)
    ∧ (∀ p ∈ [("emoji_1f602", List.replicate 16 (0xF800 : Nat) ++ [0x07E0])],
        (chunks16 p.2).flatten = p.2 ∧ ∀ ch ∈ chunks16 p.2, ch ≠ [] ∧ ch.length ≤ 16) :=
  ⟨by decide,
    (C8_emitted_text_structure [("emoji_1f602", List.replicate 16 (0xF800 : Nat) ++ [0x07E0])]
      (by decide)).1⟩

/-! ## Exit behavior of `main` (lines 516-519, 581-584, 623-629)

`main` returns 1 when the SVG directory is missing, 1 when the truncated
selection `emoji_codes = selected[:target_count]` is empty, and otherwise
runs the conversion loop (whose per-item failures only print) and returns 0
after writing the header. -/

/-- The exit status of `main`, as a function of whether the source
directory exists and of the selection; per-item conversion outcomes never
reach a `return`. -/
def mainExitCode (svg_dir_exists : Bool) (selected : List String)
    (target_count : Nat) : Nat :=
  if svg_dir_exists = false then 1
  else if selected.take target_count = [] then 1
  else 0

/-- How many assets the conversion loop successfully appends to `arrays`:
one per selected code whose conversion succeeds. -/
def producedCount (emoji_codes : List String) (convert_ok : String → Bool) : Nat :=
  (emoji_codes.filter convert_ok).length

/-- C5 counterexample: the directory exists and one identifier is selected,
but its conversion fails, so zero assets are produced — the claimed
equivalence would force a non-zero exit status, yet `main` returns 0. -/
theorem C5_exit_status_counterexample :
    ¬ (mainExitCode true ["1F602"] 1 ≠ 0
        ↔ (true = false
            ∨ producedCount (["1F602"].take 1) (fun _ => false) = 0)) := by
  decide

/-- C5 amended: the exit status is non-zero iff the source directory does
not exist or the truncated selection is empty; it is independent of how
many conversions succeed, so `main` exits 0 even when every selected item
fails to convert. -/
theorem C5_exit_status_amended (d : Bool) (selected : List String)
    (t : Nat) (convert_ok : String → Bool) :
    (mainExitCode d selected t ≠ 0 ↔ (d = false ∨ selected.take t = []))
    ∧ (d = true → selected.take t ≠ [] →
        producedCount (selected.take t) convert_ok = 0 →
        mainExitCode d selected t = 0) := by
  unfold mainExitCode
  by_cases hd : d = false
  · simp [hd]
  · rw [if_neg hd]
    by_cases hs : selected.take t = []
    · simp [hs, hd]
    · simp [hs, hd]

/-- Witness for the amended C5: directory present, one selected identifier,
its conversion failing. -/
theorem C5_exit_status_amended_witness :
    (mainExitCode true ["1F602"] 1 ≠ 0
        ↔ ((true = false) ∨ (["1F602"] : List String).take 1 = []))
    ∧ (true = true → (["1F602"] : List String).take 1 ≠ [] →
        producedCount ((["1F602"] : List String).take 1) (fun _ => false) = 0 →
        mainExitCode true ["1F602"] 1 = 0) :=
  C5_exit_status_amended true ["1F602"] 1 (fun _ => false)

/-! ## Rasterizer geometry (`render_drawing_to_pil`, lines 275-299)

The bounds-fitting arithmetic is modelled exactly over `ℚ` (the Python
floats involved are halves and reciprocals of small integers; the claims
are about the algebra of the transform). -/

/-- `dw = max(1e-6, max_x - min_x)` (and the same for `dh`), line 287-288. -/
def render_dw (lo hi : ℚ) : ℚ := max (1 / 1000000) (hi - lo)

/-- `scale = min(size / dw, size / dh)`, line 290. -/
def render_scale (size min_x min_y max_x max_y : ℚ) : ℚ :=
  min (size / render_dw min_x max_x) (size / render_dw min_y max_y)

/-- `offset_x = (size - dw * scale) / 2.0`, line 291. -/
def render_offset_x (size min_x min_y max_x max_y : ℚ) : ℚ :=
  (size - render_dw min_x max_x * render_scale size min_x min_y max_x max_y) / 2

/-- `offset_y = (size - dh * scale) / 2.0`, line 292. -/
def render_offset_y (size min_x min_y max_x max_y : ℚ) : ℚ :=
  (size - render_dw min_y max_y * render_scale size min_x min_y max_x max_y) / 2

/-- `tx(x) = offset_x + (x - min_x) * scale`, line 295. -/
def render_tx (size min_x min_y max_x max_y x : ℚ) : ℚ :=
  render_offset_x size min_x min_y max_x max_y
    + (x - min_x) * render_scale size min_x min_y max_x max_y

/-- `ty(y) = offset_y + (y - min_y) * scale`, line 299 (no Y flip). -/
def render_ty (size min_x min_y max_x max_y y : ℚ) : ℚ :=
  render_offset_y size min_x min_y max_x max_y
    + (y - min_y) * render_scale size min_x min_y max_x max_y

/-- `img = Image.new("RGB", (size, size), background_key)`, line 275. -/
def render_canvas_init (size : Nat) (background_key : Pixel) : Img :=
  ⟨size, size, fun _ _ => background_key⟩

/-- C6 counterexample: a bounding box of width `1/2000000 > 0` (below the
`1e-6` degeneracy clamp) and height 4; the code clamps `dw` to `1e-6`, so
the scaled bounding box is NOT centered: the left padding differs from the
right padding. -/
theorem C6_render_geometry_counterexample :
    (0 : ℚ) < 1 / 2000000 - 0 ∧ (0 : ℚ) < 4 - 0 ∧
    render_tx 64 0 0 (1 / 2000000) 4 0
      ≠ 64 - render_tx 64 0 0 (1 / 2000000) 4 (1 / 2000000) := by
  refine ⟨by norm_num, by norm_num, ?_⟩
  have hdw : render_dw (0 : ℚ) (1 / 2000000) = 1 / 1000000 := by
    rw [render_dw]; norm_num
  have hdh : render_dw (0 : ℚ) 4 = 4 := by
    rw [render_dw]; norm_num
  have hsc : render_scale 64 0 0 (1 / 2000000) 4 = 16 := by
    rw [render_scale, hdw, hdh]; norm_num
  have hox : render_offset_x 64 0 0 (1 / 2000000) 4 = (64 - 16 / 1000000) / 2 := by
    rw [render_offset_x, hdw, hsc]; norm_num
  rw [render_tx, render_tx, hsc, hox]
  norm_num

/-- C6 amended: for bounding boxes whose width and height are at least the
`1e-6` degeneracy clamp (so `dw`/`dh` are the true box dimensions), the
single scale factor is `min(size/dw, size/dh)` for both axes, the offsets
`(size - dw*scale)/2` and `(size - dh*scale)/2` center the scaled box with
equal padding on each side, a box at least as tall as wide is scaled by
height (filling the vertical extent exactly), and the canvas starts filled
with the background color. -/
theorem C6_render_geometry_amended (size min_x min_y max_x max_y : ℚ)
    (hx : 1 / 1000000 ≤ max_x - min_x) (hy : 1 / 1000000 ≤ max_y - min_y)
    (hsize : 0 < size) :
    render_scale size min_x min_y max_x max_y
        = min (size / (max_x - min_x)) (size / (max_y - min_y))
    ∧ render_tx size min_x min_y max_x max_y min_x
        = render_offset_x size min_x min_y max_x max_y
    ∧ size - render_tx size min_x min_y max_x max_y max_x
        = render_offset_x size min_x min_y max_x max_y
    ∧ size - render_ty size min_x min_y max_x max_y max_y
        = render_offset_y size min_x min_y max_x max_y
    ∧ (max_x - min_x ≤ max_y - min_y →
        render_scale size min_x min_y max_x max_y = size / (max_y - min_y)
        ∧ render_offset_y size min_x min_y max_x max_y = 0)
    ∧ (∀ (n : Nat) (bgc : Pixel) (x y : Nat),
        (render_canvas_init n bgc).px x y = bgc) := by
  have hdw : render_dw min_x max_x = max_x - min_x := by
    rw [render_dw]; exact max_eq_right hx
  have hdh : render_dw min_y max_y = max_y - min_y := by
    rw [render_dw]; exact max_eq_right hy
  have hdwpos : 0 < max_x - min_x := by linarith
  have hdhpos : 0 < max_y - min_y := by linarith
  refine ⟨?_, ?_, ?_, ?_, ?_, fun _ _ _ _ => rfl⟩
  · rw [render_scale, hdw, hdh]
  · rw [render_tx]; ring
  · rw [render_tx, render_offset_x, hdw]; ring
  · rw [render_ty, render_offset_y, hdh]; ring
  · intro hwide
    have hsc : render_scale size min_x min_y max_x max_y
        = size / (max_y - min_y) := by
      rw [render_scale, hdw, hdh]
      apply min_eq_right
      gcongr
    refine ⟨hsc, ?_⟩
    rw [render_offset_y, hdh, hsc]
    rw [mul_div_cancel₀ size (ne_of_gt hdhpos)]
    ring

/-- Witness for the amended C6: a 2-wide, 4-tall box in a 64-pixel canvas. -/
theorem C6_render_geometry_amended_witness :
    (1 / 1000000 : ℚ) ≤ 2 - 0 ∧ (1 / 1000000 : ℚ) ≤ 4 - 0 ∧ (0 : ℚ) < 64 ∧
    (render_scale 64 0 0 2 4 = min ((64 : ℚ) / (2 - 0)) ((64 : ℚ) / (4 - 0))
      ∧ render_tx 64 0 0 2 4 0 = render_offset_x 64 0 0 2 4
      ∧ (64 : ℚ) - render_tx 64 0 0 2 4 2 = render_offset_x 64 0 0 2 4
      ∧ (64 : ℚ) - render_ty 64 0 0 2 4 4 = render_offset_y 64 0 0 2 4
      ∧ ((2 : ℚ) - 0 ≤ 4 - 0 →
          render_scale 64 0 0 2 4 = 64 / ((4 : ℚ) - 0)
          ∧ render_offset_y 64 0 0 2 4 = 0)
      ∧ (∀ (n : Nat) (bgc : Pixel) (x y : Nat),
          (render_canvas_init n bgc).px x y = bgc)) :=
  ⟨by norm_num, by norm_num, by norm_num,
    C6_render_geometry_amended 64 0 0 2 4 (by norm_num) (by norm_num) (by norm_num)⟩

/-! ## Centering post-process (`center_by_visible_pixels`, lines 422-465)

The bounding-box scan is the fold of the row-major pixel loop; the four
state components are `(min_x, min_y, max_x, max_y)`, initialized to
`(w, h, -1, -1)`. `dx`/`dy` are `int(round(canvas_c - bbox_c))`: the
centers are exact halves of integers, CPython floats represent them
exactly, and `round` rounds halves to even — modelled by `pyHalfRound` on
the numerator of the half-integer difference. -/

/-- Round-half-to-even of `n / 2` (Python `int(round(x))` for the exactly
representable half-integer `x = n / 2`). -/
def pyHalfRound (n : ℤ) : ℤ :=
  if n % 2 = 0 then n / 2
  else if (n - 1) % 4 = 0 then (n - 1) / 2 else (n + 1) / 2

/-- One iteration of the bbox scan loop (lines 437-448): skip background
pixels, otherwise update the four running bounds. -/
def bboxStep (img : Img) (bg : Pixel) (st : ℤ × ℤ × ℤ × ℤ)
    (p : Nat × Nat) : ℤ × ℤ × ℤ × ℤ :=
  if img.px p.1 p.2 = bg then st
  else (min st.1 (p.1 : ℤ), min st.2.1 (p.2 : ℤ),
        max st.2.2.1 (p.1 : ℤ), max st.2.2.2 (p.2 : ℤ))

/-- The bbox scan over the whole canvas, starting from
`min_x, min_y = w, h` and `max_x = max_y = -1`. -/
def scanBBox (img : Img) (bg : Pixel) : ℤ × ℤ × ℤ × ℤ :=
  (coordsList img.w img.h).foldl (bboxStep img bg)
    ((img.w : ℤ), (img.h : ℤ), -1, -1)

/-- `dx = int(round(canvas_cx - bbox_cx))` (line 459), with
`canvas_cx - bbox_cx = ((w - 1) - (min_x + max_x)) / 2`. -/
def center_dx (img : Img) (bg : Pixel) : ℤ :=
  pyHalfRound ((img.w : ℤ) - 1 - ((scanBBox img bg).1 + (scanBBox img bg).2.2.1))

/-- `dy = int(round(canvas_cy - bbox_cy))` (line 460). -/
def center_dy (img : Img) (bg : Pixel) : ℤ :=
  pyHalfRound ((img.h : ℤ) - 1 - ((scanBBox img bg).2.1 + (scanBBox img bg).2.2.2))

/-- `centered = Image.new("RGB", (w, h), bg); centered.paste(img, (dx, dy))`
(lines 462-464): pixel `(x, y)` comes from `img` at `(x - dx, y - dy)` when
that source coordinate is inside `img`, and is background otherwise (PIL
clips the paste). -/
def pasteShift (img : Img) (bg : Pixel) (dx dy : ℤ) : Img :=
  Img.mk img.w img.h (fun x y =>
    if dx ≤ (x : ℤ) ∧ (x : ℤ) < dx + img.w ∧ dy ≤ (y : ℤ) ∧ (y : ℤ) < dy + img.h
    then img.px ((x : ℤ) - dx).toNat ((y : ℤ) - dy).toNat
    else bg)

/-- Embedding of `center_by_visible_pixels`: return the image unchanged
when no non-background pixel exists (`max < min` test, line 451),
otherwise re-paste shifted by the rounded centering offset. -/
def center_by_visible_pixels (img : Img) (background_key : Pixel) : Img :=
  if (scanBBox img background_key).2.2.1 < (scanBBox img background_key).1
      ∨ (scanBBox img background_key).2.2.2 < (scanBBox img background_key).2.1
  then img
  else pasteShift img background_key
    (center_dx img background_key) (center_dy img background_key)

/-- The `(dx, dy)` the function computes, `none` when it returns early. -/
def center_offsets (img : Img) (background_key : Pixel) : Option (ℤ × ℤ) :=
  if (scanBBox img background_key).2.2.1 < (scanBBox img background_key).1
      ∨ (scanBBox img background_key).2.2.2 < (scanBBox img background_key).2.1
  then none
  else some (center_dx img background_key, center_dy img background_key)

/-- The coordinates of the non-background pixels, in scan order. -/
def visList (img : Img) (bg : Pixel) : List (Nat × Nat) :=
  (coordsList img.w img.h).filter (fun p => decide (img.px p.1 p.2 ≠ bg))

theorem mem_visList {img : Img} {bg : Pixel} {p : Nat × Nat} :
    p ∈ visList img bg ↔ p.1 < img.w ∧ p.2 < img.h ∧ img.px p.1 p.2 ≠ bg := by
  unfold visList
  rw [List.mem_filter, mem_coordsList, decide_eq_true_eq]
  tauto

/-- The unconditional min/max update, to which `bboxStep` reduces on the
filtered visible list. -/
def minmaxStep (st : ℤ × ℤ × ℤ × ℤ) (p : Nat × Nat) : ℤ × ℤ × ℤ × ℤ :=
  (min st.1 (p.1 : ℤ), min st.2.1 (p.2 : ℤ),
    max st.2.2.1 (p.1 : ℤ), max st.2.2.2 (p.2 : ℤ))

theorem foldl_bboxStep_eq_filter (img : Img) (bg : Pixel) :
    ∀ (l : List (Nat × Nat)) (st : ℤ × ℤ × ℤ × ℤ),
      l.foldl (bboxStep img bg) st
        = (l.filter (fun p => decide (img.px p.1 p.2 ≠ bg))).foldl minmaxStep st := by
  intro l
  induction l with
  | nil => intro st; rfl
  | cons c t ih =>
      intro st
      rw [List.foldl_cons, List.filter_cons]
      by_cases hc : img.px c.1 c.2 = bg
      · have : (decide (img.px c.1 c.2 ≠ bg)) = false := by simp [hc]
        rw [this, if_neg (by simp)]
        rw [bboxStep, if_pos hc]
        exact ih st
      · have : (decide (img.px c.1 c.2 ≠ bg)) = true := by simp [hc]
        rw [this, if_pos (by simp)]
        rw [List.foldl_cons, bboxStep, if_neg hc]
        exact ih _

theorem scanBBox_eq_visList_foldl (img : Img) (bg : Pixel) :
    scanBBox img bg
      = (visList img bg).foldl minmaxStep ((img.w : ℤ), (img.h : ℤ), -1, -1) := by
  unfold scanBBox visList
  exact foldl_bboxStep_eq_filter img bg _ _

/-! ### Generic fold-min / fold-max characterizations -/

theorem foldl_min_le_init {β : Type} (f : β → ℤ) :
    ∀ (l : List β) (a : ℤ), l.foldl (fun x b => min x (f b)) a ≤ a := by
  intro l
  induction l with
  | nil => intro a; simp
  | cons c t ih =>
      intro a
      rw [List.foldl_cons]
      exact le_trans (ih (min a (f c))) (min_le_left _ _)

theorem foldl_min_le_mem {β : Type} (f : β → ℤ) :
    ∀ (l : List β) (a : ℤ) (b : β), b ∈ l →
      l.foldl (fun x b => min x (f b)) a ≤ f b := by
  intro l
  induction l with
  | nil => intro a b hb; cases hb
  | cons c t ih =>
      intro a b hb
      rw [List.foldl_cons]
      rcases List.mem_cons.mp hb with hb | hb
      · subst hb
        exact le_trans (foldl_min_le_init f t _) (min_le_right _ _)
      · exact ih _ b hb

theorem le_foldl_min {β : Type} (f : β → ℤ) :
    ∀ (l : List β) (a v : ℤ), v ≤ a → (∀ b ∈ l, v ≤ f b) →
      v ≤ l.foldl (fun x b => min x (f b)) a := by
  intro l
  induction l with
  | nil => intro a v hv _; simpa using hv
  | cons c t ih =>
      intro a v hv hl
      rw [List.foldl_cons]
      exact ih _ v (le_min hv (hl c (List.mem_cons_self c t)))
        (fun b hb => hl b (List.mem_cons_of_mem c hb))

theorem foldl_min_attained {β : Type} (f : β → ℤ) :
    ∀ (l : List β) (a : ℤ),
      l.foldl (fun x b => min x (f b)) a = a
      ∨ ∃ b ∈ l, l.foldl (fun x b => min x (f b)) a = f b := by
  intro l
  induction l with
  | nil => intro a; left; rfl
  | cons c t ih =>
      intro a
      rw [List.foldl_cons]
      rcases ih (min a (f c)) with h | ⟨b, hb, h⟩
      · rcases min_cases a (f c) with ⟨hm, _⟩ | ⟨hm, _⟩
        · left; rw [h, hm]
        · right; exact ⟨c, List.mem_cons_self c t, by rw [h, hm]⟩
      · right; exact ⟨b, List.mem_cons_of_mem c hb, h⟩

theorem foldl_max_init_le {β : Type} (f : β → ℤ) :
    ∀ (l : List β) (a : ℤ), a ≤ l.foldl (fun x b => max x (f b)) a := by
  intro l
  induction l with
  | nil => intro a; simp
  | cons c t ih =>
      intro a
      rw [List.foldl_cons]
      exact le_trans (le_max_left _ _) (ih (max a (f c)))

theorem foldl_max_mem_le {β : Type} (f : β → ℤ) :
    ∀ (l : List β) (a : ℤ) (b : β), b ∈ l →
      f b ≤ l.foldl (fun x b => max x (f b)) a := by
  intro l
  induction l with
  | nil => intro a b hb; cases hb
  | cons c t ih =>
      intro a b hb
      rw [List.foldl_cons]
      rcases List.mem_cons.mp hb with hb | hb
      · subst hb
        exact le_trans (le_max_right _ _) (foldl_max_init_le f t _)
      · exact ih _ b hb

theorem foldl_max_le {β : Type} (f : β → ℤ) :
    ∀ (l : List β) (a v : ℤ), a ≤ v → (∀ b ∈ l, f b ≤ v) →
      l.foldl (fun x b => max x (f b)) a ≤ v := by
  intro l
  induction l with
  | nil => intro a v hv _; simpa using hv
  | cons c t ih =>
      intro a v hv hl
      rw [List.foldl_cons]
      exact ih _ v (max_le hv (hl c (List.mem_cons_self c t)))
        (fun b hb => hl b (List.mem_cons_of_mem c hb))

theorem foldl_max_attained {β : Type} (f : β → ℤ) :
    ∀ (l : List β) (a : ℤ),
      l.foldl (fun x b => max x (f b)) a = a
      ∨ ∃ b ∈ l, l.foldl (fun x b => max x (f b)) a = f b := by
  intro l
  induction l with
  | nil => intro a; left; rfl
  | cons c t ih =>
      intro a
      rw [List.foldl_cons]
      rcases ih (max a (f c)) with h | ⟨b, hb, h⟩
      · rcases max_cases a (f c) with ⟨hm, _⟩ | ⟨hm, _⟩
        · left; rw [h, hm]
        · right; exact ⟨c, List.mem_cons_self c t, by rw [h, hm]⟩
      · right; exact ⟨b, List.mem_cons_of_mem c hb, h⟩

/-! ### Componentwise decomposition of the 4-fold -/

theorem foldl_minmax_fst :
    ∀ (l : List (Nat × Nat)) (a b c d : ℤ),
      (l.foldl minmaxStep (a, b, c, d)).1
        = l.foldl (fun x p => min x ((p.1 : Nat) : ℤ)) a := by
  intro l
  induction l with
  | nil => intro a b c d; rfl
  | cons e t ih =>
      intro a b c d
      rw [List.foldl_cons, List.foldl_cons]
      exact ih _ _ _ _

theorem foldl_minmax_snd :
    ∀ (l : List (Nat × Nat)) (a b c d : ℤ),
      (l.foldl minmaxStep (a, b, c, d)).2.1
        = l.foldl (fun x p => min x ((p.2 : Nat) : ℤ)) b := by
  intro l
  induction l with
  | nil => intro a b c d; rfl
  | cons e t ih =>
      intro a b c d
      rw [List.foldl_cons, List.foldl_cons]
      exact ih _ _ _ _

theorem foldl_minmax_thd :
    ∀ (l : List (Nat × Nat)) (a b c d : ℤ),
      (l.foldl minmaxStep (a, b, c, d)).2.2.1
        = l.foldl (fun x p => max x ((p.1 : Nat) : ℤ)) c := by
  intro l
  induction l with
  | nil => intro a b c d; rfl
  | cons e t ih =>
      intro a b c d
      rw [List.foldl_cons, List.foldl_cons]
      exact ih _ _ _ _

theorem foldl_minmax_fth :
    ∀ (l : List (Nat × Nat)) (a b c d : ℤ),
      (l.foldl minmaxStep (a, b, c, d)).2.2.2
        = l.foldl (fun x p => max x ((p.2 : Nat) : ℤ)) d := by
  intro l
  induction l with
  | nil => intro a b c d; rfl
  | cons e t ih =>
      intro a b c d
      rw [List.foldl_cons, List.foldl_cons]
      exact ih _ _ _ _

/-! ### The empty branch -/

theorem scanBBox_of_visList_nil (img : Img) (bg : Pixel)
    (hvis : visList img bg = []) :
    scanBBox img bg = ((img.w : ℤ), (img.h : ℤ), -1, -1) := by
  rw [scanBBox_eq_visList_foldl, hvis]
  rfl

theorem center_of_visList_nil (img : Img) (bg : Pixel)
    (hvis : visList img bg = []) :
    center_by_visible_pixels img bg = img := by
  rw [center_by_visible_pixels, scanBBox_of_visList_nil img bg hvis]
  rw [if_pos]
  left
  show (-1 : ℤ) < (img.w : ℤ)
  have : (0 : ℤ) ≤ (img.w : ℤ) := Int.natCast_nonneg _
  omega

/-- C9: an image whose every pixel is the sentinel background color is
returned unchanged by `center_by_visible_pixels`. -/
theorem C9_background_only_unchanged (img : Img)
    (hall : ∀ x y, x < img.w → y < img.h → img.px x y = BACKGROUND_KEY) :
    center_by_visible_pixels img BACKGROUND_KEY = img := by
  apply center_of_visList_nil
  rw [visList, List.filter_eq_nil_iff]
  intro p hp
  have hm := mem_coordsList.mp hp
  simp [hall p.1 p.2 hm.1 hm.2]

/-- Witness for C9: a 2×2 all-background image. -/
theorem C9_background_only_unchanged_witness :
    center_by_visible_pixels (Img.mk 2 2 (fun _ _ => (255, 0, 255))) BACKGROUND_KEY
      = Img.mk 2 2 (fun _ _ => (255, 0, 255)) :=
  C9_background_only_unchanged _ (fun _ _ _ _ => rfl)

/-! ### Round-half-even facts -/

theorem pyHalfRound_diff (n : ℤ) :
    n - 2 * pyHalfRound n = 0 ∨ n - 2 * pyHalfRound n = 1
      ∨ n - 2 * pyHalfRound n = -1 := by
  unfold pyHalfRound
  split_ifs <;> omega

theorem pyHalfRound_of_small (m : ℤ) (h : m = 0 ∨ m = 1 ∨ m = -1) :
    pyHalfRound m = 0 := by
  rcases h with h | h | h <;> subst h <;> decide

/-! ### Visible pixels of a background-padded shift -/

theorem mem_visList_pasteShift (img : Img) (bg : Pixel) (dx dy : ℤ)
    (hrange : ∀ p ∈ visList img bg,
        0 ≤ (p.1 : ℤ) + dx ∧ (p.1 : ℤ) + dx < img.w
        ∧ 0 ≤ (p.2 : ℤ) + dy ∧ (p.2 : ℤ) + dy < img.h) (q : Nat × Nat) :
    q ∈ visList (pasteShift img bg dx dy) bg
      ↔ ∃ p ∈ visList img bg,
          (q.1 : ℤ) = (p.1 : ℤ) + dx ∧ (q.2 : ℤ) = (p.2 : ℤ) + dy := by
  rw [mem_visList]
  constructor
  · rintro ⟨hq1, hq2, hqpx⟩
    by_cases hcond : dx ≤ (q.1 : ℤ) ∧ (q.1 : ℤ) < dx + img.w
        ∧ dy ≤ (q.2 : ℤ) ∧ (q.2 : ℤ) < dy + img.h
    · obtain ⟨h1, h2, h3, h4⟩ := hcond
      refine ⟨(((q.1 : ℤ) - dx).toNat, ((q.2 : ℤ) - dy).toNat), ?_, ?_, ?_⟩
      · rw [mem_visList]
        refine ⟨by omega, by omega, ?_⟩
        have hpx : (pasteShift img bg dx dy).px q.1 q.2
            = img.px ((q.1 : ℤ) - dx).toNat ((q.2 : ℤ) - dy).toNat := by
          show (if dx ≤ (q.1 : ℤ) ∧ (q.1 : ℤ) < dx + img.w
              ∧ dy ≤ (q.2 : ℤ) ∧ (q.2 : ℤ) < dy + img.h
            then img.px ((q.1 : ℤ) - dx).toNat ((q.2 : ℤ) - dy).toNat
            else bg) = img.px ((q.1 : ℤ) - dx).toNat ((q.2 : ℤ) - dy).toNat
          rw [if_pos ⟨h1, h2, h3, h4⟩]
        rw [hpx] at hqpx
        exact hqpx
      · show (q.1 : ℤ) = ((((q.1 : ℤ) - dx).toNat : Nat) : ℤ) + dx
        omega
      · show (q.2 : ℤ) = ((((q.2 : ℤ) - dy).toNat : Nat) : ℤ) + dy
        omega
    · exfalso
      apply hqpx
      show (if dx ≤ (q.1 : ℤ) ∧ (q.1 : ℤ) < dx + img.w
          ∧ dy ≤ (q.2 : ℤ) ∧ (q.2 : ℤ) < dy + img.h
        then img.px ((q.1 : ℤ) - dx).toNat ((q.2 : ℤ) - dy).toNat
        else bg) = bg
      rw [if_neg hcond]
  · rintro ⟨p, hp, he1, he2⟩
    have hpm := mem_visList.mp hp
    have hr := hrange p hp
    have hw : ((p.1 : Nat) : ℤ) < (img.w : ℤ) := by exact_mod_cast hpm.1
    have hh : ((p.2 : Nat) : ℤ) < (img.h : ℤ) := by exact_mod_cast hpm.2.1
    refine ⟨?_, ?_, ?_⟩
    · show q.1 < img.w
      have : (q.1 : ℤ) < (img.w : ℤ) := by rw [he1]; exact hr.2.1
      exact_mod_cast this
    · show q.2 < img.h
      have : (q.2 : ℤ) < (img.h : ℤ) := by rw [he2]; exact hr.2.2.2
      exact_mod_cast this
    · have hcond : dx ≤ (q.1 : ℤ) ∧ (q.1 : ℤ) < dx + img.w
          ∧ dy ≤ (q.2 : ℤ) ∧ (q.2 : ℤ) < dy + img.h := by omega
      show (if dx ≤ (q.1 : ℤ) ∧ (q.1 : ℤ) < dx + img.w
          ∧ dy ≤ (q.2 : ℤ) ∧ (q.2 : ℤ) < dy + img.h
        then img.px ((q.1 : ℤ) - dx).toNat ((q.2 : ℤ) - dy).toNat
        else bg) ≠ bg
      rw [if_pos hcond]
      have t1 : ((q.1 : ℤ) - dx).toNat = p.1 := by omega
      have t2 : ((q.2 : ℤ) - dy).toNat = p.2 := by omega
      rw [t1, t2]
      exact hpm.2.2

/-! ### The scan on a nonempty visible set -/

theorem scanBBox_nonempty_spec (img : Img) (bg : Pixel)
    (hne : visList img bg ≠ []) :
    (∀ p ∈ visList img bg,
        (scanBBox img bg).1 ≤ (p.1 : ℤ) ∧ (p.1 : ℤ) ≤ (scanBBox img bg).2.2.1
        ∧ (scanBBox img bg).2.1 ≤ (p.2 : ℤ) ∧ (p.2 : ℤ) ≤ (scanBBox img bg).2.2.2)
    ∧ (∃ p ∈ visList img bg, (p.1 : ℤ) = (scanBBox img bg).1)
    ∧ (∃ p ∈ visList img bg, (p.1 : ℤ) = (scanBBox img bg).2.2.1)
    ∧ (∃ p ∈ visList img bg, (p.2 : ℤ) = (scanBBox img bg).2.1)
    ∧ (∃ p ∈ visList img bg, (p.2 : ℤ) = (scanBBox img bg).2.2.2) := by
  obtain ⟨p0, hp0⟩ := List.exists_mem_of_ne_nil _ hne
  have hb0 := mem_visList.mp hp0
  have hw0 : ((p0.1 : Nat) : ℤ) < (img.w : ℤ) := by exact_mod_cast hb0.1
  have hh0 : ((p0.2 : Nat) : ℤ) < (img.h : ℤ) := by exact_mod_cast hb0.2.1
  have e1 : (scanBBox img bg).1
      = (visList img bg).foldl (fun x p => min x ((p.1 : Nat) : ℤ)) (img.w : ℤ) := by
    rw [scanBBox_eq_visList_foldl]; exact foldl_minmax_fst _ _ _ _ _
  have e2 : (scanBBox img bg).2.1
      = (visList img bg).foldl (fun x p => min x ((p.2 : Nat) : ℤ)) (img.h : ℤ) := by
    rw [scanBBox_eq_visList_foldl]; exact foldl_minmax_snd _ _ _ _ _
  have e3 : (scanBBox img bg).2.2.1
      = (visList img bg).foldl (fun x p => max x ((p.1 : Nat) : ℤ)) (-1 : ℤ) := by
    rw [scanBBox_eq_visList_foldl]; exact foldl_minmax_thd _ _ _ _ _
  have e4 : (scanBBox img bg).2.2.2
      = (visList img bg).foldl (fun x p => max x ((p.2 : Nat) : ℤ)) (-1 : ℤ) := by
    rw [scanBBox_eq_visList_foldl]; exact foldl_minmax_fth _ _ _ _ _
  refine ⟨?_, ?_, ?_, ?_, ?_⟩
  · intro p hp
    refine ⟨?_, ?_, ?_, ?_⟩
    · rw [e1]; exact foldl_min_le_mem _ _ _ p hp
    · rw [e3]; exact foldl_max_mem_le _ _ _ p hp
    · rw [e2]; exact foldl_min_le_mem _ _ _ p hp
    · rw [e4]; exact foldl_max_mem_le _ _ _ p hp
  · rcases foldl_min_attained (fun p : Nat × Nat => ((p.1 : Nat) : ℤ))
        (visList img bg) (img.w : ℤ) with hcase | ⟨p, hp, hpe⟩
    · exfalso
      have hle := foldl_min_le_mem (fun p : Nat × Nat => ((p.1 : Nat) : ℤ))
        (visList img bg) (img.w : ℤ) p0 hp0
      rw [hcase] at hle
      have hle2 : (img.w : ℤ) ≤ ((p0.1 : Nat) : ℤ) := hle
      omega
    · exact ⟨p, hp, by rw [e1, hpe]⟩
  · rcases foldl_max_attained (fun p : Nat × Nat => ((p.1 : Nat) : ℤ))
        (visList img bg) (-1 : ℤ) with hcase | ⟨p, hp, hpe⟩
    · exfalso
      have hle := foldl_max_mem_le (fun p : Nat × Nat => ((p.1 : Nat) : ℤ))
        (visList img bg) (-1 : ℤ) p0 hp0
      rw [hcase] at hle
      have hle2 : ((p0.1 : Nat) : ℤ) ≤ (-1 : ℤ) := hle
      have : (0 : ℤ) ≤ ((p0.1 : Nat) : ℤ) := Int.natCast_nonneg _
      omega
    · exact ⟨p, hp, by rw [e3, hpe]⟩
  · rcases foldl_min_attained (fun p : Nat × Nat => ((p.2 : Nat) : ℤ))
        (visList img bg) (img.h : ℤ) with hcase | ⟨p, hp, hpe⟩
    · exfalso
      have hle := foldl_min_le_mem (fun p : Nat × Nat => ((p.2 : Nat) : ℤ))
        (visList img bg) (img.h : ℤ) p0 hp0
      rw [hcase] at hle
      have hle2 : (img.h : ℤ) ≤ ((p0.2 : Nat) : ℤ) := hle
      omega
    · exact ⟨p, hp, by rw [e2, hpe]⟩
  · rcases foldl_max_attained (fun p : Nat × Nat => ((p.2 : Nat) : ℤ))
        (visList img bg) (-1 : ℤ) with hcase | ⟨p, hp, hpe⟩
    · exfalso
      have hle := foldl_max_mem_le (fun p : Nat × Nat => ((p.2 : Nat) : ℤ))
        (visList img bg) (-1 : ℤ) p0 hp0
      rw [hcase] at hle
      have hle2 : ((p0.2 : Nat) : ℤ) ≤ (-1 : ℤ) := hle
      have : (0 : ℤ) ≤ ((p0.2 : Nat) : ℤ) := Int.natCast_nonneg _
      omega
    · exact ⟨p, hp, by rw [e4, hpe]⟩

/-! ### The scan of the re-pasted canvas -/

theorem scanBBox_pasteShift (img : Img) (bg : Pixel) (dx dy : ℤ)
    (hb1 : ∀ p ∈ visList img bg,
        (scanBBox img bg).1 ≤ (p.1 : ℤ) ∧ (p.1 : ℤ) ≤ (scanBBox img bg).2.2.1
        ∧ (scanBBox img bg).2.1 ≤ (p.2 : ℤ) ∧ (p.2 : ℤ) ≤ (scanBBox img bg).2.2.2)
    (ha : ∃ p ∈ visList img bg, (p.1 : ℤ) = (scanBBox img bg).1)
    (hbb : ∃ p ∈ visList img bg, (p.1 : ℤ) = (scanBBox img bg).2.2.1)
    (hc : ∃ p ∈ visList img bg, (p.2 : ℤ) = (scanBBox img bg).2.1)
    (hd : ∃ p ∈ visList img bg, (p.2 : ℤ) = (scanBBox img bg).2.2.2)
    (hrange : ∀ p ∈ visList img bg,
        0 ≤ (p.1 : ℤ) + dx ∧ (p.1 : ℤ) + dx < img.w
        ∧ 0 ≤ (p.2 : ℤ) + dy ∧ (p.2 : ℤ) + dy < img.h) :
    scanBBox (pasteShift img bg dx dy) bg
      = ((scanBBox img bg).1 + dx, (scanBBox img bg).2.1 + dy,
         (scanBBox img bg).2.2.1 + dx, (scanBBox img bg).2.2.2 + dy) := by
  have hJw : (pasteShift img bg dx dy).w = img.w := rfl
  have hJh : (pasteShift img bg dx dy).h = img.h := rfl
  have hshift : ∀ p ∈ visList img bg,
      ((((p.1 : ℤ) + dx).toNat, ((p.2 : ℤ) + dy).toNat) : Nat × Nat)
        ∈ visList (pasteShift img bg dx dy) bg := by
    intro p hp
    rw [mem_visList_pasteShift img bg dx dy hrange]
    have hr := hrange p hp
    refine ⟨p, hp, ?_, ?_⟩
    · show ((((p.1 : ℤ) + dx).toNat : Nat) : ℤ) = (p.1 : ℤ) + dx
      omega
    · show ((((p.2 : ℤ) + dy).toNat : Nat) : ℤ) = (p.2 : ℤ) + dy
      omega
  have hmemJ : ∀ q ∈ visList (pasteShift img bg dx dy) bg,
      ∃ p ∈ visList img bg,
        (q.1 : ℤ) = (p.1 : ℤ) + dx ∧ (q.2 : ℤ) = (p.2 : ℤ) + dy := by
    intro q hq
    exact (mem_visList_pasteShift img bg dx dy hrange q).mp hq
  rw [Prod.ext_iff, Prod.ext_iff, Prod.ext_iff]
  refine ⟨?_, ?_, ?_, ?_⟩
  · -- min_x of the shifted canvas
    show (scanBBox (pasteShift img bg dx dy) bg).1 = (scanBBox img bg).1 + dx
    rw [scanBBox_eq_visList_foldl, foldl_minmax_fst, hJw]
    obtain ⟨pa, hpa, hpae⟩ := ha
    have hra := hrange pa hpa
    apply le_antisymm
    · have hle := foldl_min_le_mem (fun p : Nat × Nat => ((p.1 : Nat) : ℤ))
        (visList (pasteShift img bg dx dy) bg) (img.w : ℤ) _ (hshift pa hpa)
      have hle2 : (visList (pasteShift img bg dx dy) bg).foldl
          (fun x p => min x ((p.1 : Nat) : ℤ)) (img.w : ℤ)
          ≤ ((((pa.1 : ℤ) + dx).toNat : Nat) : ℤ) := hle
      omega
    · apply le_foldl_min
      · omega
      · intro q hq
        obtain ⟨p, hp, he1, _⟩ := hmemJ q hq
        have hbp := (hb1 p hp).1
        omega
  · show (scanBBox (pasteShift img bg dx dy) bg).2.1 = (scanBBox img bg).2.1 + dy
    rw [scanBBox_eq_visList_foldl, foldl_minmax_snd, hJh]
    obtain ⟨pc, hpc, hpce⟩ := hc
    have hrc := hrange pc hpc
    apply le_antisymm
    · have hle := foldl_min_le_mem (fun p : Nat × Nat => ((p.2 : Nat) : ℤ))
        (visList (pasteShift img bg dx dy) bg) (img.h : ℤ) _ (hshift pc hpc)
      have hle2 : (visList (pasteShift img bg dx dy) bg).foldl
          (fun x p => min x ((p.2 : Nat) : ℤ)) (img.h : ℤ)
          ≤ ((((pc.2 : ℤ) + dy).toNat : Nat) : ℤ) := hle
      omega
    · apply le_foldl_min
      · omega
      · intro q hq
        obtain ⟨p, hp, _, he2⟩ := hmemJ q hq
        have hbp := (hb1 p hp).2.2.1
        omega
  · show (scanBBox (pasteShift img bg dx dy) bg).2.2.1 = (scanBBox img bg).2.2.1 + dx
    rw [scanBBox_eq_visList_foldl, foldl_minmax_thd]
    obtain ⟨pb, hpb, hpbe⟩ := hbb
    have hrb := hrange pb hpb
    apply le_antisymm
    · apply foldl_max_le
      · have hr0 : 0 ≤ (pb.1 : ℤ) + dx := hrb.1
        omega
      · intro q hq
        obtain ⟨p, hp, he1, _⟩ := hmemJ q hq
        have hbp := (hb1 p hp).2.1
        omega
    · have hle := foldl_max_mem_le (fun p : Nat × Nat => ((p.1 : Nat) : ℤ))
        (visList (pasteShift img bg dx dy) bg) (-1 : ℤ) _ (hshift pb hpb)
      have hle2 : ((((pb.1 : ℤ) + dx).toNat : Nat) : ℤ)
          ≤ (visList (pasteShift img bg dx dy) bg).foldl
            (fun x p => max x ((p.1 : Nat) : ℤ)) (-1 : ℤ) := hle
      omega
  · show (scanBBox (pasteShift img bg dx dy) bg).2.2.2 = (scanBBox img bg).2.2.2 + dy
    rw [scanBBox_eq_visList_foldl, foldl_minmax_fth]
    obtain ⟨pd, hpd, hpde⟩ := hd
    have hrd := hrange pd hpd
    apply le_antisymm
    · apply foldl_max_le
      · have hr0 : 0 ≤ (pd.2 : ℤ) + dy := hrd.2.2.1
        omega
      · intro q hq
        obtain ⟨p, hp, _, he2⟩ := hmemJ q hq
        have hbp := (hb1 p hp).2.2.2
        omega
    · have hle := foldl_max_mem_le (fun p : Nat × Nat => ((p.2 : Nat) : ℤ))
        (visList (pasteShift img bg dx dy) bg) (-1 : ℤ) _ (hshift pd hpd)
      have hle2 : ((((pd.2 : ℤ) + dy).toNat : Nat) : ℤ)
          ≤ (visList (pasteShift img bg dx dy) bg).foldl
            (fun x p => max x ((p.2 : Nat) : ℤ)) (-1 : ℤ) := hle
      omega

/-! ### Idempotence of the centering pass -/

theorem center_dx_def (img : Img) (bg : Pixel) :
    center_dx img bg
      = pyHalfRound ((img.w : ℤ) - 1
          - ((scanBBox img bg).1 + (scanBBox img bg).2.2.1)) := rfl

theorem center_dy_def (img : Img) (bg : Pixel) :
    center_dy img bg
      = pyHalfRound ((img.h : ℤ) - 1
          - ((scanBBox img bg).2.1 + (scanBBox img bg).2.2.2)) := rfl

theorem center_w (img : Img) (bg : Pixel) :
    (center_by_visible_pixels img bg).w = img.w := by
  unfold center_by_visible_pixels
  split <;> rfl

theorem center_h (img : Img) (bg : Pixel) :
    (center_by_visible_pixels img bg).h = img.h := by
  unfold center_by_visible_pixels
  split <;> rfl

theorem scanBBox_branch_of_ne_nil (img : Img) (bg : Pixel)
    (hne : visList img bg ≠ []) :
    ¬((scanBBox img bg).2.2.1 < (scanBBox img bg).1
      ∨ (scanBBox img bg).2.2.2 < (scanBBox img bg).2.1) := by
  obtain ⟨hb1, ha, _, hc, _⟩ := scanBBox_nonempty_spec img bg hne
  obtain ⟨pa, hpa, hpae⟩ := ha
  obtain ⟨pc, hpc, hpce⟩ := hc
  have h1 := (hb1 pa hpa).2.1
  have h2 := (hb1 pc hpc).2.2.2
  omega

theorem center_of_ne_nil (img : Img) (bg : Pixel)
    (hne : visList img bg ≠ []) :
    center_by_visible_pixels img bg
      = pasteShift img bg (center_dx img bg) (center_dy img bg) := by
  rw [center_by_visible_pixels, if_neg (scanBBox_branch_of_ne_nil img bg hne)]

theorem pasteShift_zero_px (img : Img) (bg : Pixel) (x y : Nat)
    (hx : x < img.w) (hy : y < img.h) :
    (pasteShift img bg 0 0).px x y = img.px x y := by
  have hxz : (x : ℤ) < (img.w : ℤ) := by exact_mod_cast hx
  have hyz : (y : ℤ) < (img.h : ℤ) := by exact_mod_cast hy
  show (if (0 : ℤ) ≤ (x : ℤ) ∧ (x : ℤ) < 0 + img.w
      ∧ (0 : ℤ) ≤ (y : ℤ) ∧ (y : ℤ) < 0 + img.h
    then img.px ((x : ℤ) - 0).toNat ((y : ℤ) - 0).toNat
    else bg) = img.px x y
  rw [if_pos ⟨by omega, by omega, by omega, by omega⟩]
  have t1 : ((x : ℤ) - 0).toNat = x := by omega
  have t2 : ((y : ℤ) - 0).toNat = y := by omega
  rw [t1, t2]

/-- C4: applying the centering pass twice gives the same image as applying
it once — equal dimensions and equal pixels on the whole canvas — and
whenever the image has a visible pixel the offset the second application
computes is `(0, 0)`. -/
theorem C4_centering_idempotent (img : Img) :
    (center_by_visible_pixels
        (center_by_visible_pixels img BACKGROUND_KEY) BACKGROUND_KEY).w
      = (center_by_visible_pixels img BACKGROUND_KEY).w
    ∧ (center_by_visible_pixels
        (center_by_visible_pixels img BACKGROUND_KEY) BACKGROUND_KEY).h
      = (center_by_visible_pixels img BACKGROUND_KEY).h
    ∧ (∀ x y, x < img.w → y < img.h →
        (center_by_visible_pixels
          (center_by_visible_pixels img BACKGROUND_KEY) BACKGROUND_KEY).px x y
        = (center_by_visible_pixels img BACKGROUND_KEY).px x y)
    ∧ (visList img BACKGROUND_KEY ≠ [] →
        center_offsets (center_by_visible_pixels img BACKGROUND_KEY)
          BACKGROUND_KEY = some (0, 0)) := by
  by_cases hne : visList img BACKGROUND_KEY = []
  · have hfix := center_of_visList_nil img BACKGROUND_KEY hne
    rw [hfix, hfix]
    exact ⟨rfl, rfl, fun _ _ _ _ => rfl, fun hcon => absurd hne hcon⟩
  · -- visible pixels exist
    obtain ⟨hb1, ha, hbb, hc, hd⟩ :=
      scanBBox_nonempty_spec img BACKGROUND_KEY hne
    obtain ⟨pa, hpa, hpae⟩ := ha
    obtain ⟨pb, hpb, hpbe⟩ := hbb
    obtain ⟨pc, hpc, hpce⟩ := hc
    obtain ⟨pd, hpd, hpde⟩ := hd
    have hA : 0 ≤ (scanBBox img BACKGROUND_KEY).1 := by
      rw [← hpae]; exact Int.natCast_nonneg _
    have hC : 0 ≤ (scanBBox img BACKGROUND_KEY).2.1 := by
      rw [← hpce]; exact Int.natCast_nonneg _
    have hB : (scanBBox img BACKGROUND_KEY).2.2.1 < (img.w : ℤ) := by
      rw [← hpbe]; exact_mod_cast (mem_visList.mp hpb).1
    have hD : (scanBBox img BACKGROUND_KEY).2.2.2 < (img.h : ℤ) := by
      rw [← hpde]; exact_mod_cast (mem_visList.mp hpd).2.1
    have hAB : (scanBBox img BACKGROUND_KEY).1
        ≤ (scanBBox img BACKGROUND_KEY).2.2.1 := by
      have := (hb1 pa hpa).2.1; omega
    have hCD : (scanBBox img BACKGROUND_KEY).2.1
        ≤ (scanBBox img BACKGROUND_KEY).2.2.2 := by
      have := (hb1 pc hpc).2.2.2; omega
    have hdxe := center_dx_def img BACKGROUND_KEY
    have hdye := center_dy_def img BACKGROUND_KEY
    have hdiffx := pyHalfRound_diff ((img.w : ℤ) - 1
      - ((scanBBox img BACKGROUND_KEY).1 + (scanBBox img BACKGROUND_KEY).2.2.1))
    have hdiffy := pyHalfRound_diff ((img.h : ℤ) - 1
      - ((scanBBox img BACKGROUND_KEY).2.1 + (scanBBox img BACKGROUND_KEY).2.2.2))
    have hrange : ∀ p ∈ visList img BACKGROUND_KEY,
        0 ≤ (p.1 : ℤ) + center_dx img BACKGROUND_KEY
        ∧ (p.1 : ℤ) + center_dx img BACKGROUND_KEY < img.w
        ∧ 0 ≤ (p.2 : ℤ) + center_dy img BACKGROUND_KEY
        ∧ (p.2 : ℤ) + center_dy img BACKGROUND_KEY < img.h := by
      intro p hp
      have hbp := hb1 p hp
      omega
    have hscanJ := scanBBox_pasteShift img BACKGROUND_KEY
      (center_dx img BACKGROUND_KEY) (center_dy img BACKGROUND_KEY)
      hb1 ⟨pa, hpa, hpae⟩ ⟨pb, hpb, hpbe⟩ ⟨pc, hpc, hpce⟩ ⟨pd, hpd, hpde⟩ hrange
    have hrpa := hrange pa hpa
    have hqa : ((((pa.1 : ℤ) + center_dx img BACKGROUND_KEY).toNat,
        ((pa.2 : ℤ) + center_dy img BACKGROUND_KEY).toNat) : Nat × Nat)
        ∈ visList (pasteShift img BACKGROUND_KEY
            (center_dx img BACKGROUND_KEY) (center_dy img BACKGROUND_KEY))
          BACKGROUND_KEY := by
      rw [mem_visList_pasteShift img BACKGROUND_KEY _ _ hrange]
      refine ⟨pa, hpa, ?_, ?_⟩
      · show ((((pa.1 : ℤ) + center_dx img BACKGROUND_KEY).toNat : Nat) : ℤ)
          = (pa.1 : ℤ) + center_dx img BACKGROUND_KEY
        omega
      · show ((((pa.2 : ℤ) + center_dy img BACKGROUND_KEY).toNat : Nat) : ℤ)
          = (pa.2 : ℤ) + center_dy img BACKGROUND_KEY
        omega
    have hneJ : visList (pasteShift img BACKGROUND_KEY
        (center_dx img BACKGROUND_KEY) (center_dy img BACKGROUND_KEY))
        BACKGROUND_KEY ≠ [] := List.ne_nil_of_mem hqa
    have hs1 : (scanBBox (pasteShift img BACKGROUND_KEY
        (center_dx img BACKGROUND_KEY) (center_dy img BACKGROUND_KEY))
        BACKGROUND_KEY).1
        = (scanBBox img BACKGROUND_KEY).1 + center_dx img BACKGROUND_KEY := by
      rw [hscanJ]
    have hs2 : (scanBBox (pasteShift img BACKGROUND_KEY
        (center_dx img BACKGROUND_KEY) (center_dy img BACKGROUND_KEY))
        BACKGROUND_KEY).2.1
        = (scanBBox img BACKGROUND_KEY).2.1 + center_dy img BACKGROUND_KEY := by
      rw [hscanJ]
    have hs3 : (scanBBox (pasteShift img BACKGROUND_KEY
        (center_dx img BACKGROUND_KEY) (center_dy img BACKGROUND_KEY))
        BACKGROUND_KEY).2.2.1
        = (scanBBox img BACKGROUND_KEY).2.2.1 + center_dx img BACKGROUND_KEY := by
      rw [hscanJ]
    have hs4 : (scanBBox (pasteShift img BACKGROUND_KEY
        (center_dx img BACKGROUND_KEY) (center_dy img BACKGROUND_KEY))
        BACKGROUND_KEY).2.2.2
        = (scanBBox img BACKGROUND_KEY).2.2.2 + center_dy img BACKGROUND_KEY := by
      rw [hscanJ]
    have hJwz : (((pasteShift img BACKGROUND_KEY
        (center_dx img BACKGROUND_KEY) (center_dy img BACKGROUND_KEY)).w : Nat) : ℤ)
        = ((img.w : Nat) : ℤ) := rfl
    have hJhz : (((pasteShift img BACKGROUND_KEY
        (center_dx img BACKGROUND_KEY) (center_dy img BACKGROUND_KEY)).h : Nat) : ℤ)
        = ((img.h : Nat) : ℤ) := rfl
    have hdxJ : center_dx (pasteShift img BACKGROUND_KEY
        (center_dx img BACKGROUND_KEY) (center_dy img BACKGROUND_KEY))
        BACKGROUND_KEY = 0 := by
      rw [center_dx_def, hs1, hs3, hJwz]
      apply pyHalfRound_of_small
      omega
    have hdyJ : center_dy (pasteShift img BACKGROUND_KEY
        (center_dx img BACKGROUND_KEY) (center_dy img BACKGROUND_KEY))
        BACKGROUND_KEY = 0 := by
      rw [center_dy_def, hs2, hs4, hJhz]
      apply pyHalfRound_of_small
      omega
    have hcenter1 := center_of_ne_nil img BACKGROUND_KEY hne
    have hcenterJ := center_of_ne_nil _ BACKGROUND_KEY hneJ
    refine ⟨center_w _ _, center_h _ _, ?_, ?_⟩
    · intro x y hx hy
      rw [hcenter1, hcenterJ, hdxJ, hdyJ]
      exact pasteShift_zero_px _ BACKGROUND_KEY x y hx hy
    · intro _
      rw [hcenter1]
      rw [center_offsets, if_neg (scanBBox_branch_of_ne_nil _ BACKGROUND_KEY hneJ)]
      rw [hdxJ, hdyJ]

/-- Witness for C4: a 3×3 image with one visible pixel at the origin; the
first pass moves it to the middle, the second pass is the identity. -/
theorem C4_centering_idempotent_witness :
    (1 : Nat) < (Img.mk 3 3 (fun x y =>
        if x = 0 ∧ y = 0 then (10, 20, 30) else (255, 0, 255))).w ∧
    (center_by_visible_pixels
        (center_by_visible_pixels
          (Img.mk 3 3 (fun x y =>
            if x = 0 ∧ y = 0 then (10, 20, 30) else (255, 0, 255)))
          BACKGROUND_KEY) BACKGROUND_KEY).px 1 1
      = (center_by_visible_pixels
          (Img.mk 3 3 (fun x y =>
            if x = 0 ∧ y = 0 then (10, 20, 30) else (255, 0, 255)))
          BACKGROUND_KEY).px 1 1
    ∧ center_offsets
        (center_by_visible_pixels
          (Img.mk 3 3 (fun x y =>
            if x = 0 ∧ y = 0 then (10, 20, 30) else (255, 0, 255)))
          BACKGROUND_KEY) BACKGROUND_KEY = some (0, 0) :=
  ⟨by decide,
    (C4_centering_idempotent
      (Img.mk 3 3 (fun x y =>
        if x = 0 ∧ y = 0 then (10, 20, 30) else (255, 0, 255)))).2.2.1
      1 1 (by decide) (by decide),
    (C4_centering_idempotent
      (Img.mk 3 3 (fun x y =>
        if x = 0 ∧ y = 0 then (10, 20, 30) else (255, 0, 255)))).2.2.2
      (by decide)⟩

/-! ## Emoji selection (`main` lines 536-581, helpers lines 108-143)

Codes are ASCII hex-and-hyphen strings; Python's `upper`/`strip` are
`String.toUpper`/`String.trim` on this alphabet. -/

/-- `FACE_SEED` (lines 59-72). -/
def FACE_SEED : List String :=
  ["1F602", "1F923", "1F60D", "1F970", "1F60A", "1F60E",
   "1F609", "1F618", "1F61C", "1F62D", "1F914", "1F644"]

/-- `FUN_SEED` (lines 74-105). -/
def FUN_SEED : List String :=
  ["2764-FE0F", "1F49B", "1F49A", "1F499", "1F49C", "1F5A4", "1F496", "1F495",
   "1F49E", "1F494", "1F48B", "1F4A5", "1F4A3", "1F4A9",
   "2705", "274C", "2753", "2757", "26A0-FE0F", "1F6AB", "1F6A8", "1F4A1",
   "2728", "1F525", "1F4AF",
   "1F44D", "1F44E", "1F44F", "1F64F", "1F91D", "1F918", "270A", "1F44C", "1F91E",
   "26BD", "1F3C0", "1F3C8", "26BE", "1F3BE", "1F3D0", "1F94E", "1F94F",
   "1F3B2", "1F3AE", "1F3AF", "1F3C6", "1F947",
   "1F389", "1F38A", "1F973", "1F37E", "1F381", "1F38E", "1F3B6", "1F3A7",
   "1F355", "1F354", "1F35F", "1F357", "1F372", "1F366", "1F36A", "1F370",
   "1F36D", "1F37F", "1F96A", "1F9C0", "2615", "1F37A", "1F377", "1F378",
   "1F436", "1F431", "1F98A", "1F981", "1F984", "1F438", "1F41F", "1F433",
   "1F40D", "1F33B", "1F339", "1F340",
   "1F697", "1F695", "1F6F4", "1F6A2", "2708-FE0F", "1F680", "1F681",
   "1F3E0", "1F30D", "1F30E", "1F30F",
   "1F4F1", "1F4BB", "1F4FA", "1F4F7", "1F50A", "1F4A4", "23F0", "1F514",
   "1F4B0", "1F511"]

/-- `c = code.upper().strip()` at the top of `add` (lines 543, 161):
uppercase every character, then drop whitespace from both ends (expressed
on the character list so it computes by structural recursion). -/
def normalizeCode (code : String) : String :=
  String.mk ((((code.data.map Char.toUpper).dropWhile Char.isWhitespace).reverse.dropWhile
    Char.isWhitespace).reverse)

/-- Value of one uppercase/lowercase hex digit. -/
def hexDigitVal (c : Char) : Option Nat :=
  if '0' ≤ c ∧ c ≤ '9' then some (c.toNat - 48)
  else if 'A' ≤ c ∧ c ≤ 'F' then some (c.toNat - 55)
  else if 'a' ≤ c ∧ c ≤ 'f' then some (c.toNat - 87)
  else none

/-- `int(s, 16)` on a plain hex-digit string, `none` on failure (the
source wraps the call in `try/except` returning 0; exotic accepted forms
such as signs, `0x` prefixes or underscores never occur for codes built
from hex file stems). -/
def parseHexNat (s : String) : Option Nat :=
  if s.data.isEmpty then none
  else s.data.foldl
    (fun acc c => acc.bind (fun n => (hexDigitVal c).map (fun d => 16 * n + d)))
    (some 0)

/-- `_first_segment_hex` (lines 116-122): parse the first `-`-separated
segment (`code.split("-")[0]`, i.e. the characters before the first `-`),
0 on failure. -/
def firstSegmentHexVal (code : String) : Nat :=
  (parseHexNat (String.mk (code.data.takeWhile (fun c => c ≠ '-')))).getD 0

/-- `_is_face_like` (lines 125-133). -/
def isFaceLike (code : String) : Bool :=
  let v := firstSegmentHexVal code
  decide ((0x1F600 ≤ v ∧ v ≤ 0x1F64F) ∨ (0x1F910 ≤ v ∧ v ≤ 0x1F92F)
    ∨ (0x1F930 ≤ v ∧ v ≤ 0x1F9AF))

/-- `_is_reasonable_autofill` (lines 136-142). -/
def reasonableAutofill (code : String) : Bool :=
  decide (0x2300 ≤ firstSegmentHexVal code)

/-- `c.count("-")` on an emoji code. -/
def dashCount (s : String) : Nat := s.data.count '-'

/-- Code-point lexicographic comparison of character lists: Python's
`str < str`. -/
def charListLt : List Char → List Char → Bool
  | _, [] => false
  | [], _ :: _ => true
  | c :: cs, d :: ds =>
      if c.toNat < d.toNat then true
      else if d.toNat < c.toNat then false
      else charListLt cs ds

/-- Strict comparison of `sort_key(c) = (c.count("-"), len(c), c)` tuples,
lexicographically (lines 570-572). -/
def sortKeyLt (a b : String) : Bool :=
  decide (dashCount a < dashCount b
    ∨ (dashCount a = dashCount b
        ∧ (a.length < b.length
            ∨ (a.length = b.length ∧ charListLt a.data b.data = true))))

/-- Insert `x` after every element with a strictly smaller key — one step
of a stable insertion sort. -/
def insertByKey (x : String) : List String → List String
  | [] => [x]
  | y :: ys => if sortKeyLt y x then y :: insertByKey x ys else x :: y :: ys

/-- `sorted(available, key=sort_key)`: Python's sort is a stable sort by
the key tuple, modelled by a stable insertion sort. -/
def sortedByKey : List String → List String
  | [] => []
  | x :: xs => insertByKey x (sortedByKey xs)

/-- The mutable state of the selection in `main`: `selected`, `seen`
and `face_count`. -/
structure SelState where
  selected : List String
  seen : List String
  faceCount : Nat

/-- The closure `add(code)` in `main` (lines 541-553): normalize, skip
empty/seen/unavailable codes, enforce the face cap, append. -/
def addCode (available : List String) (max_faces : Nat)
    (st : SelState) (code : String) : SelState :=
  if normalizeCode code = "" ∨ normalizeCode code ∈ st.seen then st
  else if normalizeCode code ∉ available then st
  else if isFaceLike (normalizeCode code) then
    if max_faces ≤ st.faceCount then st
    else SelState.mk (st.selected ++ [normalizeCode code])
      (normalizeCode code :: st.seen) (st.faceCount + 1)
  else SelState.mk (st.selected ++ [normalizeCode code])
    (normalizeCode code :: st.seen) st.faceCount

/-- A seed loop (`for c in SEED: add(c); if len(selected) >= target: break`,
lines 556-559 and 563-566). -/
def seedPhase (available : List String) (max_faces target : Nat) :
    SelState → List String → SelState
  | st, [] => st
  | st, c :: cs =>
      let st2 := addCode available max_faces st c
      if target ≤ st2.selected.length then st2
      else seedPhase available max_faces target st2 cs

/-- The auto-fill loop (lines 574-579): break before adding once the
target is reached, skip non-reasonable codes, otherwise `add`. -/
def autofillPhase (available : List String) (max_faces target : Nat) :
    SelState → List String → SelState
  | st, [] => st
  | st, c :: cs =>
      if target ≤ st.selected.length then st
      else if reasonableAutofill c = false then
        autofillPhase available max_faces target st cs
      else autofillPhase available max_faces target
        (addCode available max_faces st c) cs

/-- The state after the two seed loops: `FACE_SEED` (lines 556-559), then
`FUN_SEED` when still short of the target (lines 562-566). -/
def selectAfterSeeds (available : List String) (target_count max_faces : Nat) :
    SelState :=
  if (seedPhase available max_faces target_count
      (SelState.mk [] [] 0) FACE_SEED).selected.length < target_count
  then seedPhase available max_faces target_count
    (seedPhase available max_faces target_count (SelState.mk [] [] 0) FACE_SEED)
    FUN_SEED
  else seedPhase available max_faces target_count (SelState.mk [] [] 0) FACE_SEED

/-- The state after the auto-fill loop, run only when the seeds left the
selection short (lines 569-579). -/
def selectFinalState (available : List String) (target_count max_faces : Nat) :
    SelState :=
  if (selectAfterSeeds available target_count max_faces).selected.length
      < target_count
  then autofillPhase available max_faces target_count
    (selectAfterSeeds available target_count max_faces) (sortedByKey available)
  else selectAfterSeeds available target_count max_faces

/-- The whole selection built by `main` (lines 536-581):
`emoji_codes = selected[:target_count]`. -/
def selectMain (available : List String) (target_count max_faces : Nat) :
    List String :=
  (selectFinalState available target_count max_faces).selected.take target_count

/-- C7 counterexample: a pool of two valid, available identifiers that are
both face-like, requested count 2 with face cap 0 — the selection is empty
rather than of size 2. -/
theorem C7_selection_counterexample :
    (["1F602", "1F603"] : List String).Nodup
    ∧ (List.filter (fun c => reasonableAutofill c) ["1F602", "1F603"]).length = 2
    ∧ (selectMain ["1F602", "1F603"] 2 0).length = 0 := by
  decide

/-! ### Invariants of the selection state -/

/-- What `main` maintains about `(selected, seen, face_count)`: `selected`
is duplicate-free, `seen` holds exactly its members, and `face_count`
counts its face-like entries and respects the cap. -/
def SelInv (max_faces : Nat) (st : SelState) : Prop :=
  st.selected.Nodup
  ∧ st.seen.Nodup
  ∧ (∀ c, c ∈ st.seen ↔ c ∈ st.selected)
  ∧ st.seen.length = st.selected.length
  ∧ st.faceCount = (st.selected.filter isFaceLike).length
  ∧ st.faceCount ≤ max_faces

theorem nodup_append_singleton {l : List String} {c : String}
    (h : l.Nodup) (hc : c ∉ l) : (l ++ [c]).Nodup := by
  rw [List.nodup_append]
  refine ⟨h, List.nodup_singleton c, ?_⟩
  intro a ha hmem
  rw [List.mem_singleton] at hmem
  subst hmem
  exact hc ha

theorem addCode_selInv (available : List String) (mf : Nat) (st : SelState)
    (code : String) (h : SelInv mf st) :
    SelInv mf (addCode available mf st code) := by
  obtain ⟨hn1, hn2, hiff, hlen, hfc, hcap⟩ := h
  by_cases h1 : normalizeCode code = "" ∨ normalizeCode code ∈ st.seen
  · rw [addCode, if_pos h1]; exact ⟨hn1, hn2, hiff, hlen, hfc, hcap⟩
  · by_cases h2 : normalizeCode code ∉ available
    · rw [addCode, if_neg h1, if_pos h2]; exact ⟨hn1, hn2, hiff, hlen, hfc, hcap⟩
    · have hnseen : normalizeCode code ∉ st.seen := fun hm => h1 (Or.inr hm)
      have hnsel : normalizeCode code ∉ st.selected :=
        fun hm => hnseen ((hiff _).mpr hm)
      have hiff2 : ∀ c, c ∈ normalizeCode code :: st.seen
          ↔ c ∈ st.selected ++ [normalizeCode code] := by
        intro c
        simp only [List.mem_cons, List.mem_append, List.mem_singleton, hiff c]
        tauto
      by_cases h3 : isFaceLike (normalizeCode code) = true
      · by_cases h4 : mf ≤ st.faceCount
        · rw [addCode, if_neg h1, if_neg h2, if_pos h3, if_pos h4]
          exact ⟨hn1, hn2, hiff, hlen, hfc, hcap⟩
        · rw [addCode, if_neg h1, if_neg h2, if_pos h3, if_neg h4]
          refine ⟨nodup_append_singleton hn1 hnsel,
            List.nodup_cons.mpr ⟨hnseen, hn2⟩, hiff2, by simp [hlen], ?_, ?_⟩
          · show st.faceCount + 1
              = ((st.selected ++ [normalizeCode code]).filter isFaceLike).length
            rw [List.filter_append]
            simp [h3, hfc]
          · show st.faceCount + 1 ≤ mf
            omega
      · rw [addCode, if_neg h1, if_neg h2, if_neg h3]
        refine ⟨nodup_append_singleton hn1 hnsel,
          List.nodup_cons.mpr ⟨hnseen, hn2⟩, hiff2, by simp [hlen], ?_, hcap⟩
        show st.faceCount
          = ((st.selected ++ [normalizeCode code]).filter isFaceLike).length
        rw [List.filter_append]
        simp [h3, hfc]

theorem addCode_mono (available : List String) (mf : Nat) (st : SelState)
    (code : String) :
    st.selected.length ≤ (addCode available mf st code).selected.length := by
  unfold addCode
  split_ifs <;> simp

theorem addCode_seen_cases (available : List String) (mf : Nat) (st : SelState)
    (code : String) :
    (addCode available mf st code).seen = st.seen
    ∨ (addCode available mf st code).seen = normalizeCode code :: st.seen := by
  unfold addCode
  split_ifs <;> simp

theorem seedPhase_selInv (available : List String) (mf target : Nat) :
    ∀ (l : List String) (st : SelState), SelInv mf st →
      SelInv mf (seedPhase available mf target st l) := by
  intro l
  induction l with
  | nil => intro st h; exact h
  | cons c cs ih =>
      intro st h
      rw [seedPhase]
      split
      · exact addCode_selInv available mf st c h
      · exact ih _ (addCode_selInv available mf st c h)

theorem autofillPhase_selInv (available : List String) (mf target : Nat) :
    ∀ (l : List String) (st : SelState), SelInv mf st →
      SelInv mf (autofillPhase available mf target st l) := by
  intro l
  induction l with
  | nil => intro st h; exact h
  | cons c cs ih =>
      intro st h
      rw [autofillPhase]
      split
      · exact h
      · split
        · exact ih _ h
        · exact ih _ (addCode_selInv available mf st c h)

/-! ### The stable sort is a permutation -/

theorem insertByKey_perm (x : String) :
    ∀ l : List String, (insertByKey x l).Perm (x :: l) := by
  intro l
  induction l with
  | nil => exact List.Perm.refl _
  | cons y ys ih =>
      rw [insertByKey]
      split
      · exact (ih.cons y).trans (List.Perm.swap x y ys)
      · exact List.Perm.refl _

theorem sortedByKey_perm : ∀ l : List String, (sortedByKey l).Perm l := by
  intro l
  induction l with
  | nil => exact List.Perm.refl _
  | cons x xs ih =>
      rw [sortedByKey]
      exact (insertByKey_perm x (sortedByKey xs)).trans (ih.cons x)

/-! ### Counting: the `seen` set can only eat `seen.length` candidates -/

theorem filter_not_mem_length (P : String → Bool) :
    ∀ (l : List String), l.Nodup → ∀ (seen : List String), seen.Nodup →
      (l.filter P).length
        ≤ (l.filter (fun c => P c && decide (c ∉ seen))).length + seen.length := by
  intro l
  induction l with
  | nil => intro _ seen _; simp
  | cons c cs ih =>
      intro hnd seen hsnd
      obtain ⟨hcn, hcsnd⟩ := List.nodup_cons.mp hnd
      by_cases hP : P c = true
      · by_cases hs : c ∈ seen
        · have hih := ih hcsnd (seen.erase c) (hsnd.erase c)
          have hspos : 0 < seen.length :=
            List.length_pos.mpr (List.ne_nil_of_mem hs)
          have hlen : (seen.erase c).length = seen.length - 1 :=
            List.length_erase_of_mem hs
          have hfe : cs.filter (fun x => P x && decide (x ∉ seen.erase c))
              = cs.filter (fun x => P x && decide (x ∉ seen)) := by
            apply List.filter_congr
            intro x hx
            have hxc : x ≠ c := fun he => hcn (he ▸ hx)
            have hmi : (x ∈ seen.erase c) ↔ x ∈ seen := List.mem_erase_of_ne hxc
            simp [hmi]
          rw [hfe] at hih
          have hpc : (P c && decide (c ∉ seen)) = false := by simp [hP, hs]
          rw [List.filter_cons, List.filter_cons, hpc]
          simp only [hP, if_pos, if_true, List.length_cons, Bool.false_eq_true,
            if_false]
          omega
        · have hpc : (P c && decide (c ∉ seen)) = true := by simp [hP, hs]
          rw [List.filter_cons, List.filter_cons, hpc]
          simp only [hP, if_true, List.length_cons]
          have := ih hcsnd seen hsnd
          omega
      · have hpc : (P c && decide (c ∉ seen)) = false := by simp [hP]
        rw [List.filter_cons, List.filter_cons, hpc]
        simp only [hP, Bool.false_eq_true, if_false]
        exact ih hcsnd seen hsnd

/-! ### The auto-fill loop reaches the target when enough candidates remain -/

theorem autofillPhase_reach (available : List String) (mf target : Nat) :
    ∀ (l : List String) (st : SelState),
      SelInv mf st →
      (∀ c ∈ l, c ∈ available) →
      (∀ c ∈ l, normalizeCode c = c) →
      l.Nodup →
      min target (st.selected.length
        + (l.filter (fun c => reasonableAutofill c && !isFaceLike c
            && decide (c ∉ st.seen))).length)
        ≤ (autofillPhase available mf target st l).selected.length := by
  intro l
  induction l with
  | nil =>
      intro st _ _ _ _
      rw [autofillPhase]
      simp only [List.filter_nil, List.length_nil, Nat.add_zero]
      exact min_le_right _ _
  | cons c cs ih =>
      intro st hinv hav hnorm hnd
      obtain ⟨hcne, hcsnd⟩ := List.nodup_cons.mp hnd
      have hcn : normalizeCode c = c := hnorm c (List.mem_cons_self c cs)
      have hca : c ∈ available := hav c (List.mem_cons_self c cs)
      have havcs : ∀ x ∈ cs, x ∈ available :=
        fun x hx => hav x (List.mem_cons_of_mem c hx)
      have hnormcs : ∀ x ∈ cs, normalizeCode x = x :=
        fun x hx => hnorm x (List.mem_cons_of_mem c hx)
      rw [autofillPhase]
      by_cases hT : target ≤ st.selected.length
      · rw [if_pos hT]
        exact le_trans (min_le_left _ _) hT
      · rw [if_neg hT]
        by_cases hR : reasonableAutofill c = false
        · rw [if_pos hR]
          have hfeq : (c :: cs).filter (fun x => reasonableAutofill x
                && !isFaceLike x && decide (x ∉ st.seen))
              = cs.filter (fun x => reasonableAutofill x
                && !isFaceLike x && decide (x ∉ st.seen)) := by
            rw [List.filter_cons]
            simp [hR]
          rw [hfeq]
          exact ih st hinv havcs hnormcs hcsnd
        · rw [if_neg hR]
          by_cases hseen : c ∈ st.seen
          · have hadd : addCode available mf st c = st := by
              have hm : normalizeCode c ∈ st.seen := by rw [hcn]; exact hseen
              rw [addCode, if_pos (Or.inr hm)]
            rw [hadd]
            have hfeq : (c :: cs).filter (fun x => reasonableAutofill x
                  && !isFaceLike x && decide (x ∉ st.seen))
                = cs.filter (fun x => reasonableAutofill x
                  && !isFaceLike x && decide (x ∉ st.seen)) := by
              rw [List.filter_cons]
              simp [hseen]
            rw [hfeq]
            exact ih st hinv havcs hnormcs hcsnd
          · by_cases hface : isFaceLike c = true
            · -- a face-like candidate never counts toward the bound
              have hfeq : (c :: cs).filter (fun x => reasonableAutofill x
                    && !isFaceLike x && decide (x ∉ st.seen))
                  = cs.filter (fun x => reasonableAutofill x
                    && !isFaceLike x && decide (x ∉ st.seen)) := by
                rw [List.filter_cons]
                simp [hface]
              rw [hfeq]
              have hih := ih (addCode available mf st c)
                (addCode_selInv available mf st c hinv) havcs hnormcs hcsnd
              have hmono := addCode_mono available mf st c
              have hfeq2 : cs.filter (fun x => reasonableAutofill x
                    && !isFaceLike x && decide (x ∉ (addCode available mf st c).seen))
                  = cs.filter (fun x => reasonableAutofill x
                    && !isFaceLike x && decide (x ∉ st.seen)) := by
                apply List.filter_congr
                intro x hx
                have hxc : x ≠ c := fun he => hcne (he ▸ hx)
                rcases addCode_seen_cases available mf st c with hsc | hsc
                · rw [hsc]
                · rw [hsc, hcn]
                  by_cases hxs : x ∈ st.seen
                  · simp [hxs]
                  · simp [hxs, hxc]
              rw [hfeq2] at hih
              calc min target (st.selected.length
                    + (cs.filter (fun x => reasonableAutofill x
                        && !isFaceLike x && decide (x ∉ st.seen))).length)
                  ≤ min target ((addCode available mf st c).selected.length
                    + (cs.filter (fun x => reasonableAutofill x
                        && !isFaceLike x && decide (x ∉ st.seen))).length) := by
                    apply min_le_min le_rfl
                    omega
                _ ≤ _ := hih
            · -- a reasonable, unseen, non-face candidate is always added
              have hcnee : ¬(c = "") := by
                intro he
                rw [he] at hR
                exact hR (by decide)
              have hRt : reasonableAutofill c = true := by
                cases hx : reasonableAutofill c
                · exact absurd hx hR
                · rfl
              have hfF : isFaceLike c = false := by
                cases hx : isFaceLike c
                · rfl
                · exact absurd hx hface
              have hadd : addCode available mf st c
                  = SelState.mk (st.selected ++ [c]) (c :: st.seen)
                    st.faceCount := by
                rw [addCode, hcn, if_neg ?_, if_neg ?_, if_neg hface]
                · intro hm
                  exact hm hca
                · intro hm
                  rcases hm with hm | hm
                  · exact hcnee hm
                  · exact hseen hm
              have hpc : (reasonableAutofill c && !isFaceLike c
                  && decide (c ∉ st.seen)) = true := by
                simp [hRt, hfF, hseen]
              have hfeq : (c :: cs).filter (fun x => reasonableAutofill x
                    && !isFaceLike x && decide (x ∉ st.seen))
                  = c :: cs.filter (fun x => reasonableAutofill x
                    && !isFaceLike x && decide (x ∉ st.seen)) := by
                rw [List.filter_cons, hpc]
                simp
              have hfeq2 : cs.filter (fun x => reasonableAutofill x
                    && !isFaceLike x && decide (x ∉ (c :: st.seen)))
                  = cs.filter (fun x => reasonableAutofill x
                    && !isFaceLike x && decide (x ∉ st.seen)) := by
                apply List.filter_congr
                intro x hx
                have hxc : x ≠ c := fun he => hcne (he ▸ hx)
                by_cases hxs : x ∈ st.seen
                · simp [hxs]
                · simp [hxs, hxc]
              have hih := ih (addCode available mf st c)
                (addCode_selInv available mf st c hinv) havcs hnormcs hcsnd
              rw [hadd] at hih
              simp only [hfeq2] at hih
              rw [hfeq]
              have hlen2 : (st.selected ++ [c]).length
                  = st.selected.length + 1 := by simp
              rw [hadd]
              rw [hlen2] at hih
              calc min target (st.selected.length
                    + (c :: cs.filter (fun x => reasonableAutofill x
                        && !isFaceLike x && decide (x ∉ st.seen))).length)
                  = min target (st.selected.length + 1
                    + (cs.filter (fun x => reasonableAutofill x
                        && !isFaceLike x && decide (x ∉ st.seen))).length) := by
                    rw [List.length_cons]
                    congr 1
                    omega
                _ ≤ _ := hih

/-- C7 amended: the selection never holds duplicates and never exceeds the
face cap, and it returns exactly N identifiers whenever the pool offers at
least N valid (auto-fill-reasonable) non-face identifiers; a pool whose
valid entries are mostly face-like can come up short (see the
counterexample). -/
theorem C7_selection_amended (available : List String) (target mf : Nat)
    (hnd : available.Nodup)
    (hnorm : ∀ c ∈ available, normalizeCode c = c)
    (hpool : target ≤ (available.filter
        (fun c => reasonableAutofill c && !isFaceLike c)).length) :
    (selectMain available target mf).length = target
    ∧ (selectMain available target mf).Nodup
    ∧ ((selectMain available target mf).filter isFaceLike).length ≤ mf := by
  have hinv0 : SelInv mf (SelState.mk [] [] 0) :=
    ⟨List.nodup_nil, List.nodup_nil, fun c => Iff.rfl, rfl, rfl, Nat.zero_le _⟩
  have hinv2 : SelInv mf (selectAfterSeeds available target mf) := by
    unfold selectAfterSeeds
    split
    · exact seedPhase_selInv _ _ _ _ _ (seedPhase_selInv _ _ _ _ _ hinv0)
    · exact seedPhase_selInv _ _ _ _ _ hinv0
  have hinv3 : SelInv mf (selectFinalState available target mf) := by
    unfold selectFinalState
    split
    · exact autofillPhase_selInv _ _ _ _ _ hinv2
    · exact hinv2
  have hlen3 : target ≤ (selectFinalState available target mf).selected.length := by
    unfold selectFinalState
    split
    case isTrue h2 =>
      have hperm := sortedByKey_perm available
      have hreach := autofillPhase_reach available mf target (sortedByKey available)
        (selectAfterSeeds available target mf) hinv2
        (fun c hc => hperm.mem_iff.mp hc)
        (fun c hc => hnorm c (hperm.mem_iff.mp hc))
        (hperm.nodup_iff.mpr hnd)
      have hcnt : ((sortedByKey available).filter
            (fun c => reasonableAutofill c && !isFaceLike c
              && decide (c ∉ (selectAfterSeeds available target mf).seen))).length
          = (available.filter
            (fun c => reasonableAutofill c && !isFaceLike c
              && decide (c ∉ (selectAfterSeeds available target mf).seen))).length :=
        (hperm.filter _).length_eq
      have hbudget : (available.filter
            (fun c => reasonableAutofill c && !isFaceLike c)).length
          ≤ (available.filter
            (fun c => reasonableAutofill c && !isFaceLike c
              && decide (c ∉ (selectAfterSeeds available target mf).seen))).length
            + (selectAfterSeeds available target mf).seen.length :=
        filter_not_mem_length
          (fun c => reasonableAutofill c && !isFaceLike c) available hnd
          (selectAfterSeeds available target mf).seen hinv2.2.1
      have hseenlen : (selectAfterSeeds available target mf).seen.length
          = (selectAfterSeeds available target mf).selected.length :=
        hinv2.2.2.2.1
      have hmin : min target ((selectAfterSeeds available target mf).selected.length
          + ((sortedByKey available).filter
            (fun c => reasonableAutofill c && !isFaceLike c
              && decide (c ∉ (selectAfterSeeds available target mf).seen))).length)
          = target := by
        apply min_eq_left
        omega
      rw [hmin] at hreach
      exact hreach
    case isFalse h2 => omega
  have hsel : selectMain available target mf
      = (selectFinalState available target mf).selected.take target := rfl
  refine ⟨?_, ?_, ?_⟩
  · rw [hsel, List.length_take]
    omega
  · rw [hsel]
    exact List.Nodup.sublist (List.take_sublist _ _) hinv3.1
  · rw [hsel]
    have hsub := (List.take_sublist target
      (selectFinalState available target mf).selected).filter isFaceLike
    have hlenf := hsub.length_le
    have hfc := hinv3.2.2.2.2.1
    have hcap := hinv3.2.2.2.2.2
    omega

/-- Witness for the amended C7: a pool of two valid non-face identifiers,
requested count 2, face cap 10. -/
theorem C7_selection_amended_witness :
    (["2705", "274C"] : List String).Nodup
    ∧ ((selectMain ["2705", "274C"] 2 10).length = 2
        ∧ (selectMain ["2705", "274C"] 2 10).Nodup
        ∧ ((selectMain ["2705", "274C"] 2 10).filter isFaceLike).length ≤ 10) :=
  ⟨by decide, C7_selection_amended ["2705", "274C"] 2 10 (by decide)
    (by decide) (by decide)⟩
